import Mathlib

/-!
Verification of the Planka webhook collector (`planka_collector.py`).

The development shallowly embeds the pieces of the program the claims are
about:

* the string/regex helpers used by `handle_webhook`'s Markdown parser
  (`re.search` with the four concrete patterns of the source, Python
  `str.split(' ')[0]` and `str.strip()`),
* a JSON value type together with `json.dumps(..., ensure_ascii=False)`
  and `json.loads`,
* the normalized-record construction and store/forward/response logic of
  `handle_webhook`, with the sqlite write and the outbound chat call
  modelled as explicit parameters (a write-success flag and an arbitrary
  sink outcome),
* the `init_db` schema-migration logic over an abstract schema state.

Strings are modelled as `List Char`.
-/

set_option maxRecDepth 100000

/-- Convert a string literal to the `List Char` representation used
throughout this development. -/
def ls (s : String) : List Char := s.data

/-! ## Python string helpers -/

/-- Whitespace stripped by Python `str.strip()` (ASCII fragment). -/
def isPyWs (c : Char) : Bool :=
  c = ' ' || c = '\t' || c = '\n' || c = '\r' || c = '\x0b' || c = '\x0c'

/-- Python `str.strip()`: drop whitespace from both ends. -/
def pyStrip (s : List Char) : List Char :=
  (((s.dropWhile isPyWs).reverse).dropWhile isPyWs).reverse

/-- Python `str.split(sep)` for a one-character separator: split at every
occurrence, keeping empty segments (`"".split(' ') == ['']`). -/
def pySplit (sep : Char) : List Char → List (List Char)
  | [] => [[]]
  | c :: s =>
    if c = sep then [] :: pySplit sep s
    else
      match pySplit sep s with
      | t :: ts => (c :: t) :: ts
      | [] => [[c]]

/-- `raw_message.split(' ')[0]` of the source (line 74). -/
def headSplit (s : List Char) : List Char := (pySplit ' ' s).headD []

/-- `t` occurs as a contiguous substring of `s` (Python `t in s`). -/
def hasInfix (t : List Char) : List Char → Bool
  | [] => t.isEmpty
  | c :: s => t.isPrefixOf (c :: s) || hasInfix t s

/-! ## The four `re.search` patterns of `handle_webhook`

Each pattern of the source is embedded as a dedicated backtracking
matcher with Python `re` semantics: the search is leftmost, `.*?` is
lazy, never crosses a newline, and on failure of the remainder of the
pattern the lazy group is extended one character at a time; `$` matches
at the end of the string or just before a terminal newline. -/

/-- The characters a lazy `(.*?)$` can capture: everything up to the end
of the string, or up to a terminal newline; `none` when an interior
newline blocks the dot. -/
def eolCapture : List Char → Option (List Char)
  | [] => some []
  | c :: s =>
    if c = '\n' then (if s = [] then some [] else none)
    else (eolCapture s).map (c :: ·)

/-- `re.search(r' on (.*?)$', s)` (source line 78): the capture of group 1,
or `none` when the pattern does not match. -/
def searchBoard : List Char → Option (List Char)
  | [] => none
  | c :: s =>
    match (if (ls " on ").isPrefixOf (c :: s) then eolCapture ((c :: s).drop 4) else none) with
    | some cap => some cap
    | none => searchBoard s

/-- Lazy `(.*?)` followed by the literal `stop`: the shortest newline-free
prefix `p` with `s = p ++ stop ++ r`, returned together with `r`. -/
def lazyUntilTok (stop : List Char) : List Char → Option (List Char × List Char)
  | [] => if stop.isPrefixOf ([] : List Char) then some ([], []) else none
  | c :: s =>
    if stop.isPrefixOf (c :: s) then some ([], (c :: s).drop stop.length)
    else if c = '\n' then none
    else (lazyUntilTok stop s).map (fun pr => (c :: pr.1, pr.2))

/-- Character class `[a-zA-Z0-9-]` of the card-id group. -/
def cardIdCls (c : Char) : Bool := c.isAlphanum || c = '-'

/-- Greedy `([a-zA-Z0-9-]+)\)`: the maximal nonempty class run followed by
a closing parenthesis.  (Since `)` is not in the class, the greedy `+`
can only succeed with the maximal run.) -/
def tryId (rem : List Char) : Option (List Char) :=
  let run := rem.takeWhile cardIdCls
  if run.isEmpty then none
  else if (rem.drop run.length).head? = some ')' then some run else none

/-- Lazy `(.*?)/cards/` with backtracking into later `/cards/`
occurrences when the id group fails. -/
def tryUrl : List Char → Option (List Char)
  | [] => none
  | c :: s =>
    match (if (ls "/cards/").isPrefixOf (c :: s) then tryId ((c :: s).drop 7) else none) with
    | some i => some i
    | none => if c = '\n' then none else tryUrl s

/-- Lazy label group of the card link: scan for `](` occurrences,
backtracking into later ones when the URL part fails. -/
def tryLabelCard (acc : List Char) : List Char → Option (List Char × List Char)
  | [] => none
  | c :: s =>
    match (if (ls "](").isPrefixOf (c :: s) then tryUrl ((c :: s).drop 2) else none) with
    | some i => some (acc.reverse, i)
    | none => if c = '\n' then none else tryLabelCard (c :: acc) s

/-- `re.search(r'\[(.*?)\]\((.*?/cards/([a-zA-Z0-9-]+))\)', s)` (source
line 84): the captures of groups 1 and 3. -/
def searchCard : List Char → Option (List Char × List Char)
  | [] => none
  | c :: s =>
    match (if c = '[' then tryLabelCard [] s else none) with
    | some r => some r
    | none => searchCard s

/-- `re.search(r'\[(.*?)\]', s)` (source line 90): the capture of group 1. -/
def searchText : List Char → Option (List Char)
  | [] => none
  | c :: s =>
    match (if c = '[' then (lazyUntilTok (ls "]") s).map (·.1) else none) with
    | some r => some r
    | none => searchText s

/-- The `from **A**` part of the move pattern: scan for `** to **`
occurrences after the opening `from **`, backtracking into later ones
when the second group fails. -/
def tryMoveFrom (acc : List Char) : List Char → Option (List Char × List Char)
  | [] => none
  | c :: s =>
    match (if (ls "** to **").isPrefixOf (c :: s) then
             (lazyUntilTok (ls "**") ((c :: s).drop 8)).map (fun pr => (acc.reverse, pr.1))
           else none) with
    | some r => some r
    | none => if c = '\n' then none else tryMoveFrom (c :: acc) s

/-- `re.search(r'from \*\*(.*?)\*\* to \*\*(.*?)\*\*', s)` (source line
96): the captures of groups 1 and 2. -/
def searchMove : List Char → Option (List Char × List Char)
  | [] => none
  | c :: s =>
    match (if (ls "from **").isPrefixOf (c :: s) then tryMoveFrom [] ((c :: s).drop 7) else none) with
    | some r => some r
    | none => searchMove s

/-! ## JSON values

The payload universe: JSON without floating-point numbers (integers
only).  Python `None`/`null` are identified. -/

inductive Json where
  | null : Json
  | bool : Bool → Json
  | int : Int → Json
  | str : List Char → Json
  | arr : List Json → Json
  | obj : List (List Char × Json) → Json

mutual
/-- Decidable equality on JSON values. -/
def Json.decEq : (a b : Json) → Decidable (a = b)
  | .null, .null => isTrue rfl
  | .null, .bool _ => isFalse (fun h => Json.noConfusion h)
  | .null, .int _ => isFalse (fun h => Json.noConfusion h)
  | .null, .str _ => isFalse (fun h => Json.noConfusion h)
  | .null, .arr _ => isFalse (fun h => Json.noConfusion h)
  | .null, .obj _ => isFalse (fun h => Json.noConfusion h)
  | .bool _, .null => isFalse (fun h => Json.noConfusion h)
  | .bool a, .bool b =>
    if h : a = b then isTrue (by rw [h]) else isFalse (fun hh => h (by injection hh))
  | .bool _, .int _ => isFalse (fun h => Json.noConfusion h)
  | .bool _, .str _ => isFalse (fun h => Json.noConfusion h)
  | .bool _, .arr _ => isFalse (fun h => Json.noConfusion h)
  | .bool _, .obj _ => isFalse (fun h => Json.noConfusion h)
  | .int _, .null => isFalse (fun h => Json.noConfusion h)
  | .int _, .bool _ => isFalse (fun h => Json.noConfusion h)
  | .int a, .int b =>
    if h : a = b then isTrue (by rw [h]) else isFalse (fun hh => h (by injection hh))
  | .int _, .str _ => isFalse (fun h => Json.noConfusion h)
  | .int _, .arr _ => isFalse (fun h => Json.noConfusion h)
  | .int _, .obj _ => isFalse (fun h => Json.noConfusion h)
  | .str _, .null => isFalse (fun h => Json.noConfusion h)
  | .str _, .bool _ => isFalse (fun h => Json.noConfusion h)
  | .str _, .int _ => isFalse (fun h => Json.noConfusion h)
  | .str a, .str b =>
    if h : a = b then isTrue (by rw [h]) else isFalse (fun hh => h (by injection hh))
  | .str _, .arr _ => isFalse (fun h => Json.noConfusion h)
  | .str _, .obj _ => isFalse (fun h => Json.noConfusion h)
  | .arr _, .null => isFalse (fun h => Json.noConfusion h)
  | .arr _, .bool _ => isFalse (fun h => Json.noConfusion h)
  | .arr _, .int _ => isFalse (fun h => Json.noConfusion h)
  | .arr _, .str _ => isFalse (fun h => Json.noConfusion h)
  | .arr a, .arr b =>
    match decEqList a b with
    | isTrue h => isTrue (by rw [h])
    | isFalse h => isFalse (fun hh => h (by injection hh))
  | .arr _, .obj _ => isFalse (fun h => Json.noConfusion h)
  | .obj _, .null => isFalse (fun h => Json.noConfusion h)
  | .obj _, .bool _ => isFalse (fun h => Json.noConfusion h)
  | .obj _, .int _ => isFalse (fun h => Json.noConfusion h)
  | .obj _, .str _ => isFalse (fun h => Json.noConfusion h)
  | .obj _, .arr _ => isFalse (fun h => Json.noConfusion h)
  | .obj a, .obj b =>
    match decEqObj a b with
    | isTrue h => isTrue (by rw [h])
    | isFalse h => isFalse (fun hh => h (by injection hh))

/-- Decidable equality on JSON arrays. -/
def decEqList : (a b : List Json) → Decidable (a = b)
  | [], [] => isTrue rfl
  | [], _ :: _ => isFalse (fun h => List.noConfusion h)
  | _ :: _, [] => isFalse (fun h => List.noConfusion h)
  | a :: as, b :: bs =>
    match Json.decEq a b with
    | isTrue h1 =>
      match decEqList as bs with
      | isTrue h2 => isTrue (by rw [h1, h2])
      | isFalse h2 => isFalse (fun hh => h2 (by injection hh))
    | isFalse h1 => isFalse (fun hh => h1 (by injection hh))

/-- Decidable equality on JSON object member lists. -/
def decEqObj : (a b : List (List Char × Json)) → Decidable (a = b)
  | [], [] => isTrue rfl
  | [], _ :: _ => isFalse (fun h => List.noConfusion h)
  | _ :: _, [] => isFalse (fun h => List.noConfusion h)
  | (k, v) :: as, (k2, v2) :: bs =>
    if hk : k = k2 then
      match Json.decEq v v2 with
      | isTrue h1 =>
        match decEqObj as bs with
        | isTrue h2 => isTrue (by rw [hk, h1, h2])
        | isFalse h2 => isFalse (fun hh => h2 (by injection hh))
      | isFalse h1 =>
        isFalse (fun hh => h1 (by injection hh with hh1 hh2; exact congrArg Prod.snd hh1))
    else isFalse (fun hh => hk (by injection hh with hh1 hh2; exact congrArg Prod.fst hh1))
end

instance : DecidableEq Json := Json.decEq

/-! ## Python-level access to JSON values -/

/-- Python truthiness of a JSON value (`if not data:` on line 55). -/
def truthy : Json → Bool
  | .null => false
  | .bool b => b
  | .int n => n ≠ 0
  | .str s => !s.isEmpty
  | .arr xs => !xs.isEmpty
  | .obj kvs => !kvs.isEmpty

/-- First-match key lookup in a JSON object member list (Python dicts
have unique keys, so first-match agrees with dict lookup). -/
def lookupKey : List (List Char × Json) → List Char → Option Json
  | [], _ => none
  | (k, v) :: kvs, t => if k = t then some v else lookupKey kvs t

/-- Python `key in data` (lines 69 and 102): membership for dicts, element
membership for lists, substring test for strings, `TypeError` for the
non-iterable scalars. -/
def pyIn (t : List Char) : Json → Except (List Char) Bool
  | .obj kvs => .ok (lookupKey kvs t).isSome
  | .arr xs => .ok (decide (Json.str t ∈ xs))
  | .str s => .ok (hasInfix t s)
  | .null => .error (ls "TypeError: argument of type NoneType is not iterable")
  | .bool _ => .error (ls "TypeError: argument of type bool is not iterable")
  | .int _ => .error (ls "TypeError: argument of type int is not iterable")

/-- Python `data.get(k, default)`: dict lookup with default,
`AttributeError` on every non-dict receiver. -/
def pyGet (data : Json) (k : List Char) (dflt : Json) : Except (List Char) Json :=
  match data with
  | .obj kvs => .ok ((lookupKey kvs k).getD dflt)
  | _ => .error (ls "AttributeError: object has no attribute get")

/-- Coerce the receiver of `.split` to a string: any other value raises
`AttributeError` (line 74). -/
def asStr : Json → Except (List Char) (List Char)
  | .str s => .ok s
  | _ => .error (ls "AttributeError: object has no attribute split")

/-! ## `json.dumps(..., ensure_ascii=False)` -/

/-- The opening brace character. -/
def lbrace : Char := Char.ofNat 123

/-- The closing brace character. -/
def rbrace : Char := Char.ofNat 125

/-- Hexadecimal digit of `n < 16`, lowercase as emitted by `json.dumps`. -/
def hexDigitChar (n : Nat) : Char :=
  if n < 10 then Char.ofNat (48 + n) else Char.ofNat (87 + n)

/-- Decimal digit character of `n < 10`. -/
def digitChar10 (n : Nat) : Char := Char.ofNat (48 + n)

/-- Decimal digits of `n`, most significant first; the fuel dominates the
recursion depth (any `fuel > n` is enough). -/
def dumpNatGo : Nat → Nat → List Char
  | 0, _ => []
  | fuel + 1, n =>
    if n < 10 then [digitChar10 n]
    else dumpNatGo fuel (n / 10) ++ [digitChar10 (n % 10)]

/-- Decimal representation of a natural number. -/
def dumpNat (n : Nat) : List Char := dumpNatGo (n + 1) n

/-- `json.dumps` of an integer. -/
def dumpInt (m : Int) : List Char :=
  if m < 0 then '-' :: dumpNat m.natAbs else dumpNat m.natAbs

/-- `json.dumps` escaping of one string character (`ensure_ascii=False`:
non-ASCII characters stay as they are; only the quote, the backslash and
control characters are escaped). -/
def escChar (c : Char) : List Char :=
  if c = '"' then ['\\', '"']
  else if c = '\\' then ['\\', '\\']
  else if c = '\n' then ['\\', 'n']
  else if c = '\r' then ['\\', 'r']
  else if c = '\t' then ['\\', 't']
  else if c = '\x08' then ['\\', 'b']
  else if c = '\x0c' then ['\\', 'f']
  else if c.toNat < 32 then
    ['\\', 'u', '0', '0', hexDigitChar (c.toNat / 16), hexDigitChar (c.toNat % 16)]
  else [c]

/-- `json.dumps` escaping of a string body. -/
def escStr : List Char → List Char
  | [] => []
  | c :: s => escChar c ++ escStr s

/-- A double-quoted, escaped JSON string. -/
def dumpStr (s : List Char) : List Char := '"' :: (escStr s ++ ['"'])

mutual
/-- `json.dumps(v, ensure_ascii=False)` with the default separators
`", "` and `": "`. -/
def dumpVal : Json → List Char
  | .null => ls "null"
  | .bool true => ls "true"
  | .bool false => ls "false"
  | .int m => dumpInt m
  | .str s => dumpStr s
  | .arr [] => ls "[]"
  | .arr (x :: xs) => '[' :: (dumpVal x ++ dumpElems xs ++ [']'])
  | .obj [] => [lbrace, rbrace]
  | .obj ((k, v) :: kvs) =>
      lbrace :: (dumpStr k ++ ':' :: ' ' :: dumpVal v ++ dumpMems kvs ++ [rbrace])

/-- Remaining array elements, each preceded by `", "`. -/
def dumpElems : List Json → List Char
  | [] => []
  | x :: xs => ',' :: ' ' :: (dumpVal x ++ dumpElems xs)

/-- Remaining object members, each preceded by `", "`. -/
def dumpMems : List (List Char × Json) → List Char
  | [] => []
  | (k, v) :: kvs => ',' :: ' ' :: (dumpStr k ++ ':' :: ' ' :: dumpVal v ++ dumpMems kvs)
end

/-! ## `json.loads` -/

/-- JSON whitespace. -/
def isJsonWs (c : Char) : Bool := c = ' ' || c = '\t' || c = '\n' || c = '\r'

/-- Skip JSON whitespace. -/
def skipWs (s : List Char) : List Char := s.dropWhile isJsonWs

/-- Value of a hexadecimal digit character. -/
def hexVal (c : Char) : Option Nat :=
  if '0' ≤ c ∧ c ≤ '9' then some (c.toNat - 48)
  else if 'a' ≤ c ∧ c ≤ 'f' then some (c.toNat - 87)
  else if 'A' ≤ c ∧ c ≤ 'F' then some (c.toNat - 55)
  else none

/-- Decode a JSON string body after the opening quote, processing escape
sequences; raw control characters are rejected as in Python's strict
mode.  Returns the decoded body and the input after the closing quote. -/
def parseStr : List Char → Option (List Char × List Char)
  | [] => none
  | c :: s =>
    if c = '"' then some ([], s)
    else if c = '\\' then
      match s with
      | [] => none
      | 'u' :: h1 :: h2 :: h3 :: h4 :: s2 =>
        match hexVal h1, hexVal h2, hexVal h3, hexVal h4 with
        | some v1, some v2, some v3, some v4 =>
          let n := ((v1 * 16 + v2) * 16 + v3) * 16 + v4
          if n < 55296 then
            (parseStr s2).map (fun pr => (Char.ofNat n :: pr.1, pr.2))
          else none
        | _, _, _, _ => none
      | e :: s2 =>
        let dec : Option Char :=
          if e = '"' then some '"'
          else if e = '\\' then some '\\'
          else if e = '/' then some '/'
          else if e = 'n' then some '\n'
          else if e = 'r' then some '\r'
          else if e = 't' then some '\t'
          else if e = 'b' then some '\x08'
          else if e = 'f' then some '\x0c'
          else none
        match dec with
        | some d => (parseStr s2).map (fun pr => (d :: pr.1, pr.2))
        | none => none
    else if c.toNat < 32 then none
    else (parseStr s).map (fun pr => (c :: pr.1, pr.2))

/-- Accumulate decimal digits (the continuation of a number literal). -/
def parseDigitsAux (acc : Nat) : List Char → Nat × List Char
  | [] => (acc, [])
  | c :: s =>
    if c.isDigit then parseDigitsAux (acc * 10 + (c.toNat - 48)) s
    else (acc, c :: s)

/-- Parse a nonempty run of decimal digits. -/
def parseNum : List Char → Option (Nat × List Char)
  | [] => none
  | c :: s => if c.isDigit then some (parseDigitsAux 0 (c :: s)) else none

mutual
/-- Recursive-descent JSON value parser; the fuel dominates the nesting
and element count (any fuel above the node count of the value is
enough). -/
def parseVal : Nat → List Char → Option (Json × List Char)
  | 0, _ => none
  | fuel + 1, s0 =>
    match skipWs s0 with
    | [] => none
    | c :: r =>
      if c = 'n' then
        match r with
        | 'u' :: 'l' :: 'l' :: r2 => some (.null, r2)
        | _ => none
      else if c = 't' then
        match r with
        | 'r' :: 'u' :: 'e' :: r2 => some (.bool true, r2)
        | _ => none
      else if c = 'f' then
        match r with
        | 'a' :: 'l' :: 's' :: 'e' :: r2 => some (.bool false, r2)
        | _ => none
      else if c = '"' then
        match parseStr r with
        | some (str, r2) => some (.str str, r2)
        | none => none
      else if c = '[' then
        let r1 := skipWs r
        if r1.head? = some ']' then some (.arr [], r1.tail)
        else
          match parseVal fuel r1 with
          | some (x, r2) =>
            match parseArrTail fuel r2 with
            | some (xs, r3) => some (.arr (x :: xs), r3)
            | none => none
          | none => none
      else if c = lbrace then
        match skipWs r with
        | [] => none
        | d :: r2 =>
          if d = rbrace then some (.obj [], r2)
          else if d = '"' then
            match parseStr r2 with
            | some (k, r3) =>
              match skipWs r3 with
              | [] => none
              | e :: r4 =>
                if e = ':' then
                  match parseVal fuel r4 with
                  | some (v, r5) =>
                    match parseObjTail fuel r5 with
                    | some (kvs, r6) => some (.obj ((k, v) :: kvs), r6)
                    | none => none
                  | none => none
                else none
            | none => none
          else none
      else if c = '-' then
        match parseNum r with
        | some (n, r2) => some (.int (-(n : Int)), r2)
        | none => none
      else
        match parseNum (c :: r) with
        | some (n, r2) => some (.int (n : Int), r2)
        | none => none

/-- Array elements after the first: `", "`-separated values up to `]`. -/
def parseArrTail : Nat → List Char → Option (List Json × List Char)
  | 0, _ => none
  | fuel + 1, s =>
    match skipWs s with
    | [] => none
    | c :: r =>
      if c = ']' then some ([], r)
      else if c = ',' then
        match parseVal fuel r with
        | some (x, r2) =>
          match parseArrTail fuel r2 with
          | some (xs, r3) => some (x :: xs, r3)
          | none => none
        | none => none
      else none

/-- Object members after the first, up to the closing brace. -/
def parseObjTail : Nat → List Char → Option (List (List Char × Json) × List Char)
  | 0, _ => none
  | fuel + 1, s =>
    match skipWs s with
    | [] => none
    | d :: r =>
      if d = rbrace then some ([], r)
      else if d = ',' then
        match skipWs r with
        | [] => none
        | e :: r2 =>
          if e = '"' then
            match parseStr r2 with
            | some (k, r3) =>
              match skipWs r3 with
              | [] => none
              | e2 :: r4 =>
                if e2 = ':' then
                  match parseVal fuel r4 with
                  | some (v, r5) =>
                    match parseObjTail fuel r5 with
                    | some (kvs, r6) => some ((k, v) :: kvs, r6)
                    | none => none
                  | none => none
                else none
            | none => none
          else none
      else none

end

/-- `json.loads`: parse a complete JSON document (trailing whitespace
allowed, trailing garbage rejected). -/
def loads (s : List Char) : Option Json :=
  match parseVal (s.length + 1) s with
  | some (j, rest) => if skipWs rest = [] then some j else none
  | none => none

/-- Whether the input starts with a decimal digit (a number literal
would keep consuming it). -/
def digitHead : List Char → Bool
  | [] => false
  | c :: _ => c.isDigit

mutual
/-- Fuel needed by `parseVal` to parse the serialization of a value. -/
def costV : Json → Nat
  | .null => 1
  | .bool _ => 1
  | .int _ => 1
  | .str _ => 1
  | .arr [] => 1
  | .arr (x :: xs) => 1 + costV x + costT xs
  | .obj [] => 1
  | .obj ((_, v) :: kvs) => 1 + costV v + costM kvs

/-- Fuel needed by `parseArrTail` for the remaining elements. -/
def costT : List Json → Nat
  | [] => 1
  | x :: xs => 1 + costV x + costT xs

/-- Fuel needed by `parseObjTail` for the remaining members. -/
def costM : List (List Char × Json) → Nat
  | [] => 1
  | (_, v) :: kvs => 1 + costV v + costM kvs
end

/-! ## The webhook handler (`handle_webhook`, lines 50-194)

The parsing section (lines 58-108) is embedded as `parseFields`; Python
exceptions raised there are `Except.error` values and reach the outer
`except` (line 190).  `None` values are identified with `Json.null`:
the stored `card_id`/`item_name`/`event_type` columns are SQL `NULL`
exactly when the corresponding `Json` value is `null`. -/

/-- The seven parsed values of a webhook call before the insert:
`event_type`, `item_name`, `board_name`, `user_name`, `card_id`,
`from_list`, `to_list` of source lines 59-65. -/
structure Fields where
  event_type : Json
  item_name : Json
  board_name : List Char
  user_name : List Char
  card_id : Json
  from_list : Option (List Char)
  to_list : Option (List Char)
deriving DecidableEq

/-- The initial defaults of lines 59-65. -/
def defaultFields : Fields :=
  ⟨.str (ls "Unknown"), .str (ls "N/A"), ls "N/A", ls "System", .null, none, none⟩

/-- Lines 78-80: the board name extracted from a Shape-A message, or the
default. -/
def boardOf (m : List Char) : List Char :=
  match searchBoard m with
  | some cap => pyStrip cap
  | none => ls "N/A"

/-- Lines 84-92: item name and card id extracted from a Shape-A message
(the bare-link fallback leaves `card_id` as `None`). -/
def itemOf (m : List Char) : Json × Json :=
  match searchCard m with
  | some (label, cid) => (Json.str label, Json.str cid)
  | none =>
    match searchText m with
    | some label => (Json.str label, Json.null)
    | none => (Json.str (ls "N/A"), Json.null)

/-- Lines 96-99: the move-list pair extracted from a Shape-A message. -/
def moveOf (m : List Char) : Option (List Char) × Option (List Char) :=
  match searchMove m with
  | some (a, b) => (some a, some b)
  | none => (none, none)

/-- Lines 69-108: the two-branch parser.  Shape A (`'message' in data`)
parses the Markdown notification text; Shape B (`'event' in data`) drills
into `data.item`; otherwise all defaults are kept. -/
def parseFields (data : Json) : Except (List Char) Fields :=
  match pyIn (ls "message") data with
  | .error e => .error e
  | .ok true =>
    match pyGet data (ls "title") (.str (ls "Notification")) with
    | .error e => .error e
    | .ok event_type =>
      match pyGet data (ls "message") (.str []) with
      | .error e => .error e
      | .ok msgJ =>
        match asStr msgJ with
        | .error e => .error e
        | .ok raw_message =>
          .ok ⟨event_type, (itemOf raw_message).1, boardOf raw_message,
               headSplit raw_message, (itemOf raw_message).2,
               (moveOf raw_message).1, (moveOf raw_message).2⟩
  | .ok false =>
    match pyIn (ls "event") data with
    | .error e => .error e
    | .ok true =>
      match pyGet data (ls "event") (.str (ls "unknown")) with
      | .error e => .error e
      | .ok event_type =>
        match pyGet data (ls "data") (.obj []) with
        | .error e => .error e
        | .ok payload =>
          match pyGet payload (ls "item") (.obj []) with
          | .error e => .error e
          | .ok item =>
            match pyGet item (ls "name") (.str []) with
            | .error e => .error e
            | .ok item_name =>
              match pyGet item (ls "id") (.str []) with
              | .error e => .error e
              | .ok card_id =>
                .ok ⟨event_type, item_name, ls "N/A", ls "System", card_id, none, none⟩
    | .ok false => .ok defaultFields

/-- A stored row of the `events` table (the columns written by the
INSERT of lines 113-116; `id`/`received_at` are store-assigned and not
modelled). -/
structure Record where
  event_type : Json
  item_name : Json
  board_name : List Char
  user_name : List Char
  card_id : Json
  from_list : Option (List Char)
  to_list : Option (List Char)
  raw_data : List Char
deriving DecidableEq

/-- The row inserted for a payload: the parsed fields plus
`json.dumps(data, ensure_ascii=False)` as `raw_data`. -/
def mkRecord (f : Fields) (data : Json) : Record :=
  ⟨f.event_type, f.item_name, f.board_name, f.user_name, f.card_id,
   f.from_list, f.to_list, dumpVal data⟩

/-- `ALLOWED_BOARDS = ['EP']` (line 123). -/
def ALLOWED_BOARDS : List (List Char) := [ls "EP"]

/-- `ALLOWED_TYPES = ['Card Moved', 'Card Created']` (line 124). -/
def ALLOWED_TYPES : List (List Char) := [ls "Card Moved", ls "Card Created"]

/-- `should_push = (board_name in ALLOWED_BOARDS) and (event_type in
ALLOWED_TYPES)` (line 127).  `event_type` is the raw payload value, so
membership compares JSON values against the configured strings. -/
def shouldPush (board_name : List Char) (event_type : Json) : Bool :=
  decide (board_name ∈ ALLOWED_BOARDS) &&
    decide (event_type ∈ ALLOWED_TYPES.map Json.str)

/-- The HTTP response of the handler: `({"status": "success"}, 200)` or
`({"status": "error", "message": msg}, code)`. -/
inductive Resp where
  | success : Resp
  | failure : Nat → List Char → Resp
deriving DecidableEq

/-- Observable outcome of one webhook call: the store contents after the
call, the response, and whether the chat-sink transport was invoked. -/
structure HResult where
  store : List Record
  resp : Resp
  sinkCalled : Bool
deriving DecidableEq

/-- `handle_webhook` (lines 50-194).  `store` is the prior contents of
the `events` table; `dbOk` models whether the sqlite connect/insert/
commit of lines 111-118 succeeds (on failure the exception reaches the
outer `except` before the commit, so no write is visible); `wecomUrl` is
the `WECOM_WEBHOOK` configuration value of line 122; `sinkOutcome` is
the result of the `requests.post` of line 163, which the inner
`try/except` of lines 162-169 swallows entirely, so it cannot influence
the result. -/
def handle_webhook (store : List Record) (data : Json) (dbOk : Bool)
    (wecomUrl : List Char) (sinkOutcome : Except (List Char) Nat) : HResult :=
  if truthy data = false then
    ⟨store, .failure 400 (ls "No JSON payload"), false⟩
  else
    match parseFields data with
    | .error e => ⟨store, .failure 500 e, false⟩
    | .ok f =>
      if dbOk then
        let r := mkRecord f data
        let push := shouldPush f.board_name f.event_type
        let called := push && !wecomUrl.isEmpty
        let _ := sinkOutcome
        ⟨store ++ [r], .success, called⟩
      else
        ⟨store, .failure 500 (ls "sqlite3 OperationalError"), false⟩

/-! ## `init_db` (lines 11-48)

The schema state is the column list of the `events` table (or `none`
when the table does not exist).  `ALTER TABLE ... ADD COLUMN` fails on a
duplicate column name; the write counter counts the CREATE and each
executed ALTER. -/

/-- The pre-v2 base column set of the CREATE TABLE (lines 17-27). -/
def baseColumns : List (List Char) :=
  [ls "id", ls "event_type", ls "item_name", ls "board_name",
   ls "user_name", ls "raw_data", ls "received_at"]

/-- `new_columns = {'card_id': 'TEXT', 'from_list': 'TEXT', 'to_list':
'TEXT'}` (lines 35-39). -/
def newColumns : List (List Char) := [ls "card_id", ls "from_list", ls "to_list"]

/-- Schema state: the column list of the `events` table, if it exists. -/
structure DBSchema where
  table : Option (List (List Char))
deriving DecidableEq

/-- `ALTER TABLE events ADD COLUMN c`: appends the column, failing with
sqlite's duplicate-column error when it already exists. -/
def alterAdd (cols : List (List Char)) (c : List Char) :
    Except (List Char) (List (List Char)) :=
  if decide (c ∈ cols) then .error (ls "duplicate column name")
  else .ok (cols ++ [c])

/-- One step of the migration loop of lines 41-44: `existing` is the
PRAGMA snapshot taken before the loop (line 31). -/
def migrateStep (existing : List (List Char)) :
    List (List Char) × Nat → List Char → Except (List Char) (List (List Char) × Nat)
  | (cols, w), c =>
    if decide (c ∈ existing) then .ok (cols, w)
    else
      match alterAdd cols c with
      | .error e => .error e
      | .ok cols2 => .ok (cols2, w + 1)

/-- `init_db` (lines 11-48): CREATE TABLE IF NOT EXISTS with the base
columns, then add each missing new column.  Returns the resulting schema
and the number of schema writes performed (CREATE plus ALTERs), or
sqlite's error. -/
def init_db (db : DBSchema) : Except (List Char) (DBSchema × Nat) :=
  let (cols0, w0) :=
    match db.table with
    | some cols => (cols, 0)
    | none => (baseColumns, 1)
  match newColumns.foldlM (migrateStep cols0) (cols0, w0) with
  | .error e => .error e
  | .ok (cols1, w1) => .ok (⟨some cols1⟩, w1)
/-! ## Concrete payloads used by the individual claims -/

/-- Scenario-1 payload of the spec (claim C1). -/
def payloadC1 : Json := .obj
  [(ls "title", .str (ls "Card Moved")),
   (ls "message", .str (ls "Alice moved [Fix bug](http://x/cards/abc-123) from **Backlog** to **Doing** on ProjectX"))]

/-- A truthy payload with neither `message` nor `event` key (claim C2). -/
def payloadC2 : Json := .obj [(ls "foo", .str (ls "bar"))]

/-- A Shape-A payload whose message contains two occurrences of the
token `" on "` (claim C3). -/
def payloadC3 : Json := .obj
  [(ls "title", .str (ls "Card Moved")),
   (ls "message", .str (ls "Alice moved X on Backlog on EP"))]

/-- A Shape-A payload used as a witness for claim C3. -/
def payloadC3w : Json := .obj
  [(ls "title", .str (ls "Notify")),
   (ls "message", .str (ls "Alice did X on EP"))]

/-- A Shape-A payload whose message contains the move pattern twice
(claim C4). -/
def payloadC4 : Json := .obj
  [(ls "title", .str (ls "Card Moved")),
   (ls "message", .str (ls "Bob moved T from **A** to **B** and from **C** to **D** on Z"))]

/-- A Shape-A payload with a single move pattern, used as a witness for
claim C4. -/
def payloadC4w : Json := .obj
  [(ls "title", .str (ls "Card Moved")),
   (ls "message", .str (ls "Bob moved T from **Doing** to **Done** on EP"))]

/-- A payload whose parsed board name `ProjectX` is outside
`ALLOWED_BOARDS` (claim C6). -/
def payloadC6 : Json := .obj
  [(ls "title", .str (ls "Card Moved")),
   (ls "message", .str (ls "Ann moved [T](http://x/cards/z9) from **A** to **B** on ProjectX"))]

/-- A payload whose parsed board name `EP` and type `Card Moved` pass the
forwarding filter (claim C7). -/
def payloadC7 : Json := .obj
  [(ls "title", .str (ls "Card Moved")),
   (ls "message", .str (ls "Bob moved [T](http://x/cards/a1) from **A** to **B** on EP"))]

/-- A Shape-B payload (claim C8). -/
def payloadC8 : Json := .obj
  [(ls "event", .str (ls "card_created")),
   (ls "data", .obj [(ls "item", .obj
     [(ls "name", .str (ls "New Task")), (ls "id", .str (ls "xyz"))])])]

/-- A payload exercising string escapes and nesting in the raw-payload
round trip (claim C9). -/
def payloadC9 : Json := .obj
  [(ls "title", .str (ls "A\"B\\C\nD")),
   (ls "data", .arr [.null, .bool false, .str (ls "x y"), .obj []])]

/-- The member list of a Shape-A payload whose message starts with a
space (claim C10). -/
def kvsC10 : List (List Char × Json) :=
  [(ls "message", .str (ls " leading space then words"))]


/-! # Theorems

## Generic list helpers -/

theorem isPrefixOf_append_left : ∀ (t u v : List Char), t.length ≤ u.length →
    t.isPrefixOf (u ++ v) = t.isPrefixOf u
  | [], u, v, _ => by simp [List.isPrefixOf]
  | c :: t, [], v, h => by simp at h
  | c :: t, d :: u, v, h => by
    simp only [List.cons_append, List.isPrefixOf, List.append_eq]
    rw [isPrefixOf_append_left t u v (by simpa using h)]

theorem isPrefixOf_self_append : ∀ (t v : List Char), t.isPrefixOf (t ++ v) = true
  | [], v => by simp [List.isPrefixOf]
  | c :: t, v => by simp [List.isPrefixOf, isPrefixOf_self_append t v]

theorem hasInfix_of_startOf : ∀ {t s : List Char}, t.isPrefixOf s = true → hasInfix t s = true
  | t, [], h => by
    cases t with
    | nil => simp [hasInfix]
    | cons c t => simp [List.isPrefixOf] at h
  | t, c :: s, h => by simp [hasInfix, h]

theorem hasInfix_cons {t : List Char} {c : Char} {s : List Char}
    (h : hasInfix t (c :: s) = false) :
    t.isPrefixOf (c :: s) = false ∧ hasInfix t s = false := by
  simpa [hasInfix] using h

theorem eolCapture_no_newline : ∀ {b : List Char}, '\n' ∉ b → eolCapture b = some b
  | [], _ => rfl
  | c :: b, h => by
    have hc : c ≠ '\n' := fun hh => h (hh ▸ List.mem_cons_self c b)
    have hb : '\n' ∉ b := fun hh => h (List.mem_cons_of_mem c hh)
    simp [eolCapture, hc, eolCapture_no_newline hb]

/-! ## Lemmas about the board-name search (`' on (.*?)$'`) -/

theorem on_decomp (a b : List Char) :
    a ++ ls " on " ++ b = (a ++ [' ', 'o', 'n']) ++ (' ' :: b) := by
  simp [ls, List.append_assoc]

theorem searchBoard_found : ∀ (a b : List Char),
    hasInfix (ls " on ") (a ++ [' ', 'o', 'n']) = false → '\n' ∉ b →
    searchBoard (a ++ ls " on " ++ b) = some b
  | [], b, _, hb => by
    have hp : (ls " on ").isPrefixOf (ls " on " ++ b) = true := isPrefixOf_self_append _ _
    show searchBoard (' ' :: ('o' :: 'n' :: ' ' :: b)) = some b
    rw [searchBoard]
    have : (ls " on ").isPrefixOf (' ' :: ('o' :: 'n' :: ' ' :: b)) = true := hp
    simp only [this, if_true]
    simp [eolCapture_no_newline hb]
  | c :: a, b, ha, hb => by
    have hlen : (ls " on ").length ≤ ((c :: a) ++ [' ', 'o', 'n']).length := by
      simp [ls]
    have hpre : (ls " on ").isPrefixOf ((c :: a) ++ ls " on " ++ b) = false := by
      rw [on_decomp, isPrefixOf_append_left _ _ _ hlen]
      cases hh : (ls " on ").isPrefixOf ((c :: a) ++ [' ', 'o', 'n']) with
      | false => rfl
      | true => rw [hasInfix_of_startOf hh] at ha; cases ha
    have ha2 : hasInfix (ls " on ") (a ++ [' ', 'o', 'n']) = false :=
      (hasInfix_cons (by simpa using ha)).2
    show searchBoard (c :: (a ++ ls " on " ++ b)) = some b
    rw [searchBoard]
    have hpre2 : (ls " on ").isPrefixOf (c :: (a ++ ls " on " ++ b)) = false := by
      simpa using hpre
    simp only [hpre2, if_false]
    exact searchBoard_found a b ha2 hb

theorem searchBoard_not_found : ∀ (m : List Char),
    hasInfix (ls " on ") m = false → searchBoard m = none
  | [], _ => rfl
  | c :: m, h => by
    obtain ⟨h1, h2⟩ := hasInfix_cons h
    rw [searchBoard]
    simp only [h1, if_false]
    exact searchBoard_not_found m h2

/-! ## Lemmas about the move-list search (`'from \*\*(.*?)\*\* to \*\*(.*?)\*\*'`) -/

theorem isPrefixOf_cons_false {a y : Char} {t s : List Char} (h : y ≠ a) :
    (a :: t).isPrefixOf (y :: s) = false := by
  show ((a == y) && t.isPrefixOf s) = false
  rw [beq_eq_false_iff_ne.mpr (Ne.symm h), Bool.false_and]

theorem lazyUntilTok_stars : ∀ (Y r : List Char), (∀ c ∈ Y, c ≠ '*' ∧ c ≠ '\n') →
    lazyUntilTok (ls "**") ((Y ++ ls "**") ++ r) = some (Y, r)
  | [], r, _ => by
    have hp : (ls "**").isPrefixOf ('*' :: ('*' :: r)) = true :=
      isPrefixOf_self_append (ls "**") r
    show lazyUntilTok (ls "**") ('*' :: ('*' :: r)) = some ([], r)
    rw [lazyUntilTok]
    simp only [hp, if_true]
    rfl
  | y :: Y, r, h => by
    have hy : y ≠ '*' := (h y (List.mem_cons_self y Y)).1
    have hn : y ≠ '\n' := (h y (List.mem_cons_self y Y)).2
    have hY : ∀ c ∈ Y, c ≠ '*' ∧ c ≠ '\n' := fun c hc => h c (List.mem_cons_of_mem y hc)
    have hp : (ls "**").isPrefixOf (y :: ((Y ++ ls "**") ++ r)) = false :=
      isPrefixOf_cons_false hy
    show lazyUntilTok (ls "**") (y :: ((Y ++ ls "**") ++ r)) = some (y :: Y, r)
    rw [lazyUntilTok]
    simp only [hp, if_false, hn, if_false, lazyUntilTok_stars Y r hY]
    rfl

theorem tryMoveFrom_clean : ∀ (X acc Y r : List Char),
    (∀ c ∈ X, c ≠ '*' ∧ c ≠ '\n') → (∀ c ∈ Y, c ≠ '*' ∧ c ≠ '\n') →
    tryMoveFrom acc (X ++ (ls "** to **" ++ ((Y ++ ls "**") ++ r))) =
      some (acc.reverse ++ X, Y)
  | [], acc, Y, r, _, hY => by
    have hp : (ls "** to **").isPrefixOf
        ('*' :: ('*' :: (' ' :: ('t' :: ('o' :: (' ' :: ('*' :: ('*' :: ((Y ++ ls "**") ++ r))))))))) = true :=
      isPrefixOf_self_append (ls "** to **") ((Y ++ ls "**") ++ r)
    have hgoal : tryMoveFrom acc
        ('*' :: ('*' :: (' ' :: ('t' :: ('o' :: (' ' :: ('*' :: ('*' :: ((Y ++ ls "**") ++ r)))))))))
        = some (acc.reverse, Y) := by
      rw [tryMoveFrom]
      simp only [hp, if_true]
      have hdrop : ('*' :: ('*' :: (' ' :: ('t' :: ('o' :: (' ' :: ('*' :: ('*' ::
          ((Y ++ ls "**") ++ r))))))))).drop 8 = (Y ++ ls "**") ++ r := rfl
      rw [hdrop, lazyUntilTok_stars Y r hY]
      rfl
    simpa using hgoal
  | x :: X, acc, Y, r, hX, hY => by
    have hx : x ≠ '*' := (hX x (List.mem_cons_self x X)).1
    have hn : x ≠ '\n' := (hX x (List.mem_cons_self x X)).2
    have hX2 : ∀ c ∈ X, c ≠ '*' ∧ c ≠ '\n' := fun c hc => hX c (List.mem_cons_of_mem x hc)
    have hp : (ls "** to **").isPrefixOf
        (x :: (X ++ (ls "** to **" ++ ((Y ++ ls "**") ++ r)))) = false :=
      isPrefixOf_cons_false hx
    show tryMoveFrom acc (x :: (X ++ (ls "** to **" ++ ((Y ++ ls "**") ++ r))))
        = some (acc.reverse ++ (x :: X), Y)
    rw [tryMoveFrom]
    simp only [hp, if_false, hn, if_false,
      tryMoveFrom_clean X (x :: acc) Y r hX2 hY]
    simp

theorem from_decomp (a rest : List Char) :
    a ++ (ls "from **" ++ rest) = (a ++ ls "from *") ++ ('*' :: rest) := by
  have : ls "from **" ++ rest = ls "from *" ++ ('*' :: rest) := rfl
  rw [this, ← List.append_assoc]

theorem searchMove_found : ∀ (a X Y b : List Char),
    hasInfix (ls "from **") (a ++ ls "from *") = false →
    (∀ c ∈ X, c ≠ '*' ∧ c ≠ '\n') → (∀ c ∈ Y, c ≠ '*' ∧ c ≠ '\n') →
    searchMove (a ++ (ls "from **" ++ (X ++ (ls "** to **" ++ ((Y ++ ls "**") ++ b)))))
      = some (X, Y)
  | [], X, Y, b, _, hX, hY => by
    have hp : (ls "from **").isPrefixOf
        ('f' :: ('r' :: ('o' :: ('m' :: (' ' :: ('*' :: ('*' ::
          (X ++ (ls "** to **" ++ ((Y ++ ls "**") ++ b)))))))))) = true :=
      isPrefixOf_self_append (ls "from **") (X ++ (ls "** to **" ++ ((Y ++ ls "**") ++ b)))
    have hgoal : searchMove ('f' :: ('r' :: ('o' :: ('m' :: (' ' :: ('*' :: ('*' ::
        (X ++ (ls "** to **" ++ ((Y ++ ls "**") ++ b)))))))))) = some (X, Y) := by
      rw [searchMove]
      simp only [hp, if_true]
      have hdrop : ('f' :: ('r' :: ('o' :: ('m' :: (' ' :: ('*' :: ('*' ::
          (X ++ (ls "** to **" ++ ((Y ++ ls "**") ++ b)))))))))).drop 7
          = X ++ (ls "** to **" ++ ((Y ++ ls "**") ++ b)) := rfl
      rw [hdrop, tryMoveFrom_clean X [] Y b hX hY]
      rfl
    simpa using hgoal
  | c :: a, X, Y, b, ha, hX, hY => by
    have hlen : (ls "from **").length ≤ ((c :: a) ++ ls "from *").length := by
      simp [ls]
    have hpre : (ls "from **").isPrefixOf ((c :: a) ++ (ls "from **" ++
        (X ++ (ls "** to **" ++ ((Y ++ ls "**") ++ b))))) = false := by
      rw [from_decomp, isPrefixOf_append_left _ _ _ hlen]
      cases hh : (ls "from **").isPrefixOf ((c :: a) ++ ls "from *") with
      | false => rfl
      | true => rw [hasInfix_of_startOf hh] at ha; cases ha
    have ha2 : hasInfix (ls "from **") (a ++ ls "from *") = false :=
      (hasInfix_cons (by simpa using ha)).2
    show searchMove (c :: (a ++ (ls "from **" ++
        (X ++ (ls "** to **" ++ ((Y ++ ls "**") ++ b)))))) = some (X, Y)
    rw [searchMove]
    have hpre2 : (ls "from **").isPrefixOf (c :: (a ++ (ls "from **" ++
        (X ++ (ls "** to **" ++ ((Y ++ ls "**") ++ b)))))) = false := by
      simpa using hpre
    simp only [hpre2, if_false]
    exact searchMove_found a X Y b ha2 hX hY

theorem searchMove_not_found : ∀ (m : List Char),
    hasInfix (ls "from **") m = false → searchMove m = none
  | [], _ => rfl
  | c :: m, h => by
    obtain ⟨h1, h2⟩ := hasInfix_cons h
    rw [searchMove]
    simp only [h1, if_false]
    exact searchMove_not_found m h2

/-! ## Handler-level lemmas -/

theorem pySplit_ne_nil (sep : Char) : ∀ (s : List Char), pySplit sep s ≠ []
  | [] => by simp [pySplit]
  | c :: s => by
    rw [pySplit]
    split
    · simp
    · split <;> simp

theorem headSplit_takeWhile : ∀ (m : List Char), headSplit m = m.takeWhile (· != ' ')
  | [] => rfl
  | c :: s => by
    by_cases hc : c = ' '
    · subst hc
      simp [headSplit, pySplit, List.takeWhile]
    · obtain ⟨t, ts, hts⟩ := List.exists_cons_of_ne_nil (pySplit_ne_nil ' ' s)
      have ih : headSplit s = s.takeWhile (· != ' ') := headSplit_takeWhile s
      rw [headSplit] at ih
      rw [hts] at ih
      simp only [List.headD_cons] at ih
      rw [headSplit, pySplit]
      simp only [hc, if_false, hts, List.takeWhile]
      have : (c != ' ') = true := by simpa using hc
      simp [this, ih]

theorem truthy_obj_of_lookup {kvs : List (List Char × Json)} {t : List Char} {v : Json}
    (h : lookupKey kvs t = some v) : truthy (.obj kvs) = true := by
  cases kvs with
  | nil => simp [lookupKey] at h
  | cons kv kvs => simp [truthy]

theorem parseFields_shapeA (kvs : List (List Char × Json)) (m : List Char)
    (hm : lookupKey kvs (ls "message") = some (.str m)) :
    parseFields (.obj kvs) = .ok
      ⟨(lookupKey kvs (ls "title")).getD (.str (ls "Notification")),
       (itemOf m).1, boardOf m, headSplit m, (itemOf m).2,
       (moveOf m).1, (moveOf m).2⟩ := by
  simp [parseFields, pyIn, pyGet, asStr, hm]

theorem handle_webhook_ok (store : List Record) (data : Json) (u : List Char)
    (o : Except (List Char) Nat) (f : Fields) (ht : truthy data = true)
    (hp : parseFields data = .ok f) :
    handle_webhook store data true u o =
      ⟨store ++ [mkRecord f data], .success,
       shouldPush f.board_name f.event_type && !u.isEmpty⟩ := by
  simp [handle_webhook, ht, hp]

theorem handle_webhook_append {store : List Record} {data : Json} {dbOk : Bool}
    {u : List Char} {o : Except (List Char) Nat} {r : Record}
    (h : (handle_webhook store data dbOk u o).store = store ++ [r]) :
    truthy data = true ∧ dbOk = true ∧
      ∃ f, parseFields data = .ok f ∧ r = mkRecord f data := by
  cases ht : truthy data with
  | false =>
    rw [handle_webhook] at h
    simp [ht] at h
  | true =>
    cases hp : parseFields data with
    | error e =>
      rw [handle_webhook] at h
      simp [ht, hp] at h
    | ok f =>
      cases dbOk with
      | false =>
        rw [handle_webhook] at h
        simp [ht, hp] at h
      | true =>
        rw [handle_webhook] at h
        simp [ht, hp] at h
        exact ⟨rfl, rfl, f, rfl, h.symm⟩

/-! ## Schema-migration lemmas -/

theorem migrate_all_present {cols : List (List Char)} {w : Nat}
    (h1 : ls "card_id" ∈ cols) (h2 : ls "from_list" ∈ cols) (h3 : ls "to_list" ∈ cols) :
    newColumns.foldlM (migrateStep cols) (cols, w) = .ok (cols, w) := by
  simp [newColumns, List.foldlM, migrateStep, h1, h2, h3, Bind.bind, Except.bind,
    Pure.pure, Except.pure]

theorem migrate_run : ∀ (new existing added : List (List Char)) (w : Nat),
    new.Nodup → (∀ c ∈ new, c ∉ added) →
    ∃ added2 w2,
      new.foldlM (migrateStep existing) (existing ++ added, w)
        = .ok (existing ++ (added ++ added2), w2) ∧
      ∀ c ∈ new, c ∈ existing ++ (added ++ added2)
  | [], existing, added, w, _, _ => by
    exact ⟨[], w, by simp [List.foldlM, Pure.pure, Except.pure], by simp⟩
  | c :: new, existing, added, w, hnd, hadd => by
    have hnd2 : new.Nodup := (List.nodup_cons.mp hnd).2
    have hc_new : c ∉ new := (List.nodup_cons.mp hnd).1
    by_cases hc : c ∈ existing
    · have hstep : migrateStep existing (existing ++ added, w) c
          = .ok (existing ++ added, w) := by
        simp [migrateStep, hc]
      have hadd2 : ∀ d ∈ new, d ∉ added := fun d hd => hadd d (List.mem_cons_of_mem c hd)
      obtain ⟨added2, w2, hfold, hmem⟩ := migrate_run new existing added w hnd2 hadd2
      refine ⟨added2, w2, ?_, ?_⟩
      · simp only [List.foldlM_cons, hstep, Bind.bind, Except.bind, hfold]
      · intro d hd
        rcases List.mem_cons.mp hd with hd | hd
        · subst hd; exact List.mem_append.mpr (Or.inl hc)
        · exact hmem d hd
    · have hca : c ∉ added := hadd c (List.mem_cons_self c new)
      have hguard : c ∉ existing ++ added := by
        intro hmem
        rcases List.mem_append.mp hmem with h | h
        · exact hc h
        · exact hca h
      have hstep : migrateStep existing (existing ++ added, w) c
          = .ok (existing ++ (added ++ [c]), w + 1) := by
        simp [migrateStep, hc, alterAdd, hguard, List.append_assoc]
      have hadd2 : ∀ d ∈ new, d ∉ added ++ [c] := by
        intro d hd hmem
        rcases List.mem_append.mp hmem with h | h
        · exact hadd d (List.mem_cons_of_mem c hd) h
        · rw [List.mem_singleton] at h
          subst h
          exact hc_new hd
      obtain ⟨added2, w2, hfold, hmem⟩ :=
        migrate_run new existing (added ++ [c]) (w + 1) hnd2 hadd2
      refine ⟨[c] ++ added2, w2, ?_, ?_⟩
      · simp only [List.foldlM_cons, hstep, Bind.bind, Except.bind, hfold,
          List.append_assoc, List.singleton_append]
      · intro d hd
        rcases List.mem_cons.mp hd with hd | hd
        · subst hd
          refine List.mem_append.mpr (Or.inr ?_)
          refine List.mem_append.mpr (Or.inr ?_)
          simp
        · have := hmem d hd
          simpa [List.append_assoc] using this

theorem init_db_ok : ∀ db : DBSchema, ∃ cols1 w1,
    init_db db = .ok (⟨some cols1⟩, w1) ∧
    ls "card_id" ∈ cols1 ∧ ls "from_list" ∈ cols1 ∧ ls "to_list" ∈ cols1
  | ⟨none⟩ => by
    refine ⟨baseColumns ++ newColumns, 4, ?_, by decide, by decide, by decide⟩
    rfl
  | ⟨some cols⟩ => by
    obtain ⟨added2, w2, hfold, hmem⟩ :=
      migrate_run newColumns cols [] 0 (by decide) (by simp)
    rw [show cols ++ ([] : List (List Char)) = cols from by simp] at hfold
    refine ⟨cols ++ ([] ++ added2), w2, ?_,
      hmem _ (by decide), hmem _ (by decide), hmem _ (by decide)⟩
    unfold init_db
    simp only [hfold]

/-! ## Round trip of `json.loads` over `json.dumps`: numbers -/

theorem digitChar10_spec : ∀ d : Nat, d < 10 →
    (digitChar10 d).isDigit = true ∧ (digitChar10 d).toNat = 48 + d := by
  intro d hd
  interval_cases d <;> exact ⟨by decide, by decide⟩

theorem digitChar10_shape : ∀ d : Nat, d < 10 →
    digitChar10 d ≠ 'n' ∧ digitChar10 d ≠ 't' ∧ digitChar10 d ≠ 'f' ∧
    digitChar10 d ≠ '"' ∧ digitChar10 d ≠ '[' ∧ digitChar10 d ≠ lbrace ∧
    digitChar10 d ≠ '-' ∧ isJsonWs (digitChar10 d) = false ∧ digitChar10 d ≠ ']' := by
  intro d hd
  interval_cases d <;> exact ⟨by decide, by decide, by decide, by decide,
    by decide, by decide, by decide, by decide, by decide⟩

theorem parseDigitsAux_stop {rest : List Char} (h : digitHead rest = false) (a : Nat) :
    parseDigitsAux a rest = (a, rest) := by
  cases rest with
  | nil => rfl
  | cons c r =>
    rw [parseDigitsAux]
    simp only [digitHead] at h
    simp [h]

theorem dumpNatGo_head : ∀ (fuel n : Nat), n < fuel →
    ∃ d t, dumpNatGo fuel n = digitChar10 d :: t ∧ d < 10
  | 0, n, h => absurd h (Nat.not_lt_zero n)
  | fuel + 1, n, h => by
    rw [dumpNatGo]
    by_cases hn : n < 10
    · exact ⟨n, [], by simp [hn], hn⟩
    · simp only [hn, if_false]
      have hdiv : n / 10 < fuel := by
        have h1 : n / 10 < n := Nat.div_lt_self (by omega) (by omega)
        omega
      obtain ⟨d, t, hdt, hd⟩ := dumpNatGo_head fuel (n / 10) hdiv
      exact ⟨d, t ++ [digitChar10 (n % 10)], by rw [hdt]; simp, hd⟩

theorem parseDigitsAux_dumpNatGo : ∀ (fuel n acc : Nat) (rest : List Char), n < fuel →
    parseDigitsAux acc (dumpNatGo fuel n ++ rest)
      = parseDigitsAux (acc * 10 ^ (dumpNatGo fuel n).length + n) rest
  | 0, n, acc, rest, h => absurd h (Nat.not_lt_zero n)
  | fuel + 1, n, acc, rest, h => by
    by_cases hn : n < 10
    · rw [dumpNatGo]
      simp only [hn, if_true]
      obtain ⟨hdig, hval⟩ := digitChar10_spec n hn
      rw [List.singleton_append, parseDigitsAux]
      simp only [hdig, if_true, List.length_singleton, pow_one, hval]
      congr 1
      omega
    · rw [dumpNatGo]
      simp only [hn, if_false]
      have hdiv : n / 10 < fuel := by
        have h1 : n / 10 < n := Nat.div_lt_self (by omega) (by omega)
        omega
      rw [List.append_assoc, List.singleton_append,
        parseDigitsAux_dumpNatGo fuel (n / 10) acc _ hdiv]
      have hmod : n % 10 < 10 := Nat.mod_lt n (by omega)
      obtain ⟨hdig, hval⟩ := digitChar10_spec (n % 10) hmod
      rw [parseDigitsAux]
      simp only [hdig, if_true, hval, List.length_append, List.length_singleton]
      congr 1
      have : 10 ^ ((dumpNatGo fuel (n / 10)).length + 1)
          = 10 ^ (dumpNatGo fuel (n / 10)).length * 10 := by ring
      rw [this]
      have hdm : n / 10 * 10 + n % 10 = n := by omega
      ring_nf
      omega

theorem parseNum_dumpNat (n : Nat) (rest : List Char) (h : digitHead rest = false) :
    parseNum (dumpNat n ++ rest) = some (n, rest) := by
  obtain ⟨d, t, hdt, hd⟩ := dumpNatGo_head (n + 1) n (Nat.lt_succ_self n)
  have hdig := (digitChar10_spec d hd).1
  have hfull := parseDigitsAux_dumpNatGo (n + 1) n 0 rest (Nat.lt_succ_self n)
  rw [Nat.zero_mul, Nat.zero_add, parseDigitsAux_stop h] at hfull
  rw [dumpNat, hdt, List.cons_append, parseNum]
  simp only [hdig, if_true]
  rw [← List.cons_append, ← hdt, hfull]

/-! ## Round trip of `json.loads` over `json.dumps`: strings -/

theorem hexVal_hexDigitChar : ∀ n : Nat, n < 16 → hexVal (hexDigitChar n) = some n := by
  intro n h
  interval_cases n <;> decide

theorem parseStr_escChar (c : Char) (t : List Char) :
    parseStr (escChar c ++ t) = (parseStr t).map (fun pr => (c :: pr.1, pr.2)) := by
  by_cases h1 : c = '"'
  · subst h1; simp +decide [escChar, parseStr]
  by_cases h2 : c = '\\'
  · subst h2; simp +decide [escChar, parseStr]
  by_cases h3 : c = '\n'
  · subst h3; simp +decide [escChar, parseStr]
  by_cases h4 : c = '\r'
  · subst h4; simp +decide [escChar, parseStr]
  by_cases h5 : c = '\t'
  · subst h5; simp +decide [escChar, parseStr]
  by_cases h6 : c = '\x08'
  · subst h6; simp +decide [escChar, parseStr]
  by_cases h7 : c = '\x0c'
  · subst h7; simp +decide [escChar, parseStr]
  by_cases h8 : c.toNat < 32
  · have hdiv : c.toNat / 16 < 16 := by omega
    have hmod : c.toNat % 16 < 16 := Nat.mod_lt _ (by omega)
    have hesc : escChar c = ['\\', 'u', '0', '0',
        hexDigitChar (c.toNat / 16), hexDigitChar (c.toNat % 16)] := by
      simp [escChar, h1, h2, h3, h4, h5, h6, h7, h8]
    rw [hesc]
    show parseStr ('\\' :: ('u' :: '0' :: '0' :: hexDigitChar (c.toNat / 16) ::
      hexDigitChar (c.toNat % 16) :: t)) = (parseStr t).map (fun pr => (c :: pr.1, pr.2))
    rw [parseStr]
    simp +decide only []
    rw [show hexVal '0' = some 0 from by decide,
      hexVal_hexDigitChar _ hdiv, hexVal_hexDigitChar _ hmod]
    have hn : ((0 * 16 + 0) * 16 + c.toNat / 16) * 16 + c.toNat % 16 = c.toNat := by
      omega
    simp only [hn]
    have hlt : c.toNat < 55296 := by omega
    simp only [hlt, if_true, Char.ofNat_toNat]
    simp
  · have hesc : escChar c = [c] := by
      simp [escChar, h1, h2, h3, h4, h5, h6, h7, h8]
    rw [hesc, List.singleton_append, parseStr.eq_def]
    simp [h1, h2, h8]

theorem parseStr_escStr : ∀ (s rest : List Char),
    parseStr (escStr s ++ '"' :: rest) = some (s, rest)
  | [], rest => by
    simp only [escStr, List.nil_append]
    rw [parseStr.eq_def]
    simp
  | c :: s, rest => by
    rw [escStr, List.append_assoc, parseStr_escChar, parseStr_escStr s rest]
    rfl

/-! ## Round trip of `json.loads` over `json.dumps`: values -/

theorem skipWs_cons_no {c : Char} (t : List Char) (h : isJsonWs c = false) :
    skipWs (c :: t) = c :: t := by
  simp [skipWs, List.dropWhile_cons, h]

theorem skipWs_cons_yes {c : Char} (t : List Char) (h : isJsonWs c = true) :
    skipWs (c :: t) = skipWs t := by
  simp [skipWs, List.dropWhile_cons, h]

theorem parseVal_ws {c : Char} (h : isJsonWs c = true) (fuel : Nat) (t : List Char) :
    parseVal (fuel + 1) (c :: t) = parseVal (fuel + 1) t := by
  rw [parseVal.eq_def]
  conv_rhs => rw [parseVal.eq_def]
  dsimp only
  rw [skipWs_cons_yes t h]

theorem costV_pos : ∀ j : Json, 1 ≤ costV j := by
  intro j
  cases j with
  | null => simp [costV]
  | bool b => simp [costV]
  | int m => simp [costV]
  | str s => simp [costV]
  | arr xs =>
    cases xs with
    | nil => simp [costV]
    | cons x xs => simp [costV]; omega
  | obj kvs =>
    cases kvs with
    | nil => simp [costV]
    | cons kv kvs => cases kv; simp [costV]; omega

theorem costT_pos : ∀ xs : List Json, 1 ≤ costT xs := by
  intro xs
  cases xs with
  | nil => simp [costT]
  | cons x xs => simp [costT]; omega

theorem costM_pos : ∀ kvs : List (List Char × Json), 1 ≤ costM kvs := by
  intro kvs
  cases kvs with
  | nil => simp [costM]
  | cons kv kvs => cases kv; simp [costM]; omega

theorem dumpVal_head : ∀ j : Json, ∃ c t, dumpVal j = c :: t ∧
    isJsonWs c = false ∧ c ≠ ']' := by
  intro j
  cases j with
  | null => exact ⟨'n', _, rfl, by decide, by decide⟩
  | bool b => cases b with
    | true => exact ⟨'t', _, rfl, by decide, by decide⟩
    | false => exact ⟨'f', _, rfl, by decide, by decide⟩
  | int m =>
    by_cases hm : m < 0
    · refine ⟨'-', dumpNat m.natAbs, ?_, by decide, by decide⟩
      show dumpInt m = _
      rw [dumpInt, if_pos hm]
    · obtain ⟨d, t, hdt, hd⟩ := dumpNatGo_head (m.natAbs + 1) m.natAbs (Nat.lt_succ_self _)
      obtain ⟨_, _, _, _, _, _, _, hws, hbr⟩ := digitChar10_shape d hd
      refine ⟨digitChar10 d, t, ?_, hws, hbr⟩
      show dumpInt m = _
      rw [dumpInt, if_neg hm, dumpNat, hdt]
  | str s => exact ⟨'"', _, rfl, by decide, by decide⟩
  | arr xs => cases xs with
    | nil => exact ⟨'[', _, rfl, by decide, by decide⟩
    | cons x xs => exact ⟨'[', _, rfl, by decide, by decide⟩
  | obj kvs => cases kvs with
    | nil => exact ⟨lbrace, _, rfl, by decide, by decide⟩
    | cons kv kvs => cases kv; exact ⟨lbrace, _, rfl, by decide, by decide⟩

theorem digitHead_dumpElems (xs : List Json) (rest : List Char) :
    digitHead (dumpElems xs ++ ']' :: rest) = false := by
  cases xs with
  | nil => simp [dumpElems, digitHead]
  | cons x xs => simp [dumpElems, digitHead]

theorem digitHead_dumpMems (kvs : List (List Char × Json)) (rest : List Char) :
    digitHead (dumpMems kvs ++ rbrace :: rest) = false := by
  cases kvs with
  | nil =>
    simp only [dumpMems, List.nil_append, digitHead]
    decide
  | cons kv kvs => cases kv; simp [dumpMems, digitHead]

mutual
theorem parseVal_dumpVal : ∀ (j : Json) (fuel : Nat) (rest : List Char),
    costV j ≤ fuel → digitHead rest = false →
    parseVal fuel (dumpVal j ++ rest) = some (j, rest)
  | .null, fuel, rest, hc, _ => by
    cases fuel with
    | zero => rw [costV] at hc; omega
    | succ f =>
      rw [parseVal.eq_def]
      dsimp only
      rw [show dumpVal .null ++ rest = 'n' :: ('u' :: 'l' :: 'l' :: rest) from rfl]
      rw [skipWs_cons_no _ (by decide)]
      simp +decide
  | .bool true, fuel, rest, hc, _ => by
    cases fuel with
    | zero => rw [costV] at hc; omega
    | succ f =>
      rw [parseVal.eq_def]
      dsimp only
      rw [show dumpVal (.bool true) ++ rest = 't' :: ('r' :: 'u' :: 'e' :: rest) from rfl]
      rw [skipWs_cons_no _ (by decide)]
      simp +decide
  | .bool false, fuel, rest, hc, _ => by
    cases fuel with
    | zero => rw [costV] at hc; omega
    | succ f =>
      rw [parseVal.eq_def]
      dsimp only
      rw [show dumpVal (.bool false) ++ rest = 'f' :: ('a' :: 'l' :: 's' :: 'e' :: rest) from rfl]
      rw [skipWs_cons_no _ (by decide)]
      simp +decide
  | .int m, fuel, rest, hc, hrest => by
    cases fuel with
    | zero => rw [costV] at hc; omega
    | succ f =>
      rw [parseVal.eq_def]
      dsimp only
      by_cases hm : m < 0
      · rw [show dumpVal (.int m) ++ rest = '-' :: (dumpNat m.natAbs ++ rest) from by
          show dumpInt m ++ rest = _
          rw [dumpInt, if_pos hm, List.cons_append]]
        rw [skipWs_cons_no _ (by decide)]
        simp +decide only [parseNum_dumpNat m.natAbs rest hrest, if_false, if_true]
        have hval : -((m.natAbs : Int)) = m := by omega
        rw [hval]
      · obtain ⟨d, t, hdt, hd⟩ := dumpNatGo_head (m.natAbs + 1) m.natAbs (Nat.lt_succ_self _)
        obtain ⟨hn1, hn2, hn3, hn4, hn5, hn6, hn7, hws, _⟩ := digitChar10_shape d hd
        have hcons : dumpVal (.int m) ++ rest = digitChar10 d :: (t ++ rest) := by
          show dumpInt m ++ rest = _
          rw [dumpInt, if_neg hm, dumpNat, hdt, List.cons_append]
        have hfold : digitChar10 d :: (t ++ rest) = dumpNat m.natAbs ++ rest := by
          rw [dumpNat, hdt, List.cons_append]
        have hval : ((m.natAbs : Int)) = m := by omega
        rw [hcons, skipWs_cons_no _ hws]
        simp [hn1, hn2, hn3, hn4, hn5, hn6, hn7, hfold,
          parseNum_dumpNat m.natAbs rest hrest, hval]
  | .str s, fuel, rest, hc, _ => by
    cases fuel with
    | zero => rw [costV] at hc; omega
    | succ f =>
      rw [parseVal.eq_def]
      dsimp only
      rw [show dumpVal (.str s) ++ rest = '"' :: (escStr s ++ ('"' :: rest)) from by
        show ('"' :: (escStr s ++ ['"'])) ++ rest = _
        simp]
      rw [skipWs_cons_no _ (by decide)]
      simp +decide [parseStr_escStr s rest]
  | .arr [], fuel, rest, hc, _ => by
    cases fuel with
    | zero => rw [costV] at hc; omega
    | succ f =>
      rw [parseVal.eq_def]
      dsimp only
      rw [show dumpVal (.arr []) ++ rest = '[' :: (']' :: rest) from rfl]
      rw [skipWs_cons_no _ (by decide)]
      simp +decide [skipWs_cons_no _ (by decide : isJsonWs ']' = false)]
  | .arr (x :: xs), fuel, rest, hc, hrest => by
    cases fuel with
    | zero => rw [costV] at hc; omega
    | succ f =>
      rw [costV] at hc
      have hcx : costV x ≤ f := by have := costT_pos xs; omega
      have hct : costT xs ≤ f := by have := costV_pos x; omega
      obtain ⟨c0, t0, hx, hws0, hbr0⟩ := dumpVal_head x
      have hskip : skipWs (dumpVal x ++ (dumpElems xs ++ (']' :: rest)))
          = dumpVal x ++ (dumpElems xs ++ (']' :: rest)) := by
        rw [hx, List.cons_append, skipWs_cons_no _ hws0]
      have hhead1 : (dumpVal x).head? ≠ some ']' := by
        rw [hx]
        simpa using hbr0
      have hne : dumpVal x ≠ [] := by
        rw [hx]
        simp
      rw [parseVal.eq_def]
      dsimp only
      rw [show dumpVal (.arr (x :: xs)) ++ rest
          = '[' :: (dumpVal x ++ (dumpElems xs ++ (']' :: rest))) from by
        show ('[' :: (dumpVal x ++ dumpElems xs ++ [']'])) ++ rest = _
        simp]
      rw [skipWs_cons_no _ (by decide)]
      simp +decide [hskip, hhead1, hne,
        parseVal_dumpVal x f (dumpElems xs ++ (']' :: rest)) hcx (digitHead_dumpElems xs rest),
        parseArrTail_dumpElems xs f rest hct]
  | .obj [], fuel, rest, hc, _ => by
    cases fuel with
    | zero => rw [costV] at hc; omega
    | succ f =>
      rw [parseVal.eq_def]
      dsimp only
      rw [show dumpVal (.obj []) ++ rest = lbrace :: (rbrace :: rest) from rfl]
      rw [skipWs_cons_no _ (by decide)]
      simp +decide [skipWs_cons_no _ (by decide : isJsonWs rbrace = false)]
  | .obj ((k, v) :: kvs), fuel, rest, hc, hrest => by
    cases fuel with
    | zero => rw [costV] at hc; omega
    | succ f =>
      rw [costV] at hc
      have hcv : costV v ≤ f := by have := costM_pos kvs; omega
      have hcm : costM kvs ≤ f := by have := costV_pos v; omega
      have hf1 : 1 ≤ f := by have := costV_pos v; have := costM_pos kvs; omega
      obtain ⟨g, rfl⟩ : ∃ g, f = g + 1 := ⟨f - 1, by omega⟩
      rw [parseVal.eq_def]
      dsimp only
      rw [show dumpVal (.obj ((k, v) :: kvs)) ++ rest
          = lbrace :: ('"' :: (escStr k ++ ('"' :: (':' :: (' ' ::
            (dumpVal v ++ (dumpMems kvs ++ (rbrace :: rest)))))))) from by
        rw [dumpVal, dumpStr]
        simp]
      rw [skipWs_cons_no _ (by decide)]
      simp +decide [skipWs_cons_no _ (by decide : isJsonWs '"' = false),
        skipWs_cons_no _ (by decide : isJsonWs ':' = false),
        parseStr_escStr k (':' :: (' ' :: (dumpVal v ++ (dumpMems kvs ++ (rbrace :: rest))))),
        parseVal_ws (by decide : isJsonWs ' ' = true) g
          (dumpVal v ++ (dumpMems kvs ++ (rbrace :: rest))),
        parseVal_dumpVal v (g + 1) (dumpMems kvs ++ (rbrace :: rest)) hcv
          (digitHead_dumpMems kvs rest),
        parseObjTail_dumpMems kvs (g + 1) rest hcm]

theorem parseArrTail_dumpElems : ∀ (xs : List Json) (fuel : Nat) (rest : List Char),
    costT xs ≤ fuel → parseArrTail fuel (dumpElems xs ++ ']' :: rest) = some (xs, rest)
  | [], fuel, rest, hc => by
    cases fuel with
    | zero => rw [costT] at hc; omega
    | succ f =>
      rw [parseArrTail.eq_def]
      dsimp only
      rw [show dumpElems [] ++ ']' :: rest = ']' :: rest from rfl]
      rw [skipWs_cons_no _ (by decide)]
      simp +decide
  | x :: xs, fuel, rest, hc => by
    cases fuel with
    | zero => rw [costT] at hc; omega
    | succ f =>
      rw [costT] at hc
      have hcx : costV x ≤ f := by have := costT_pos xs; omega
      have hct : costT xs ≤ f := by have := costV_pos x; omega
      have hf1 : 1 ≤ f := by have := costV_pos x; omega
      obtain ⟨g, rfl⟩ : ∃ g, f = g + 1 := ⟨f - 1, by omega⟩
      rw [parseArrTail.eq_def]
      dsimp only
      rw [show dumpElems (x :: xs) ++ ']' :: rest
          = ',' :: (' ' :: (dumpVal x ++ (dumpElems xs ++ (']' :: rest)))) from by
        rw [dumpElems]
        simp]
      rw [skipWs_cons_no _ (by decide)]
      simp +decide [parseVal_ws (by decide : isJsonWs ' ' = true) g
          (dumpVal x ++ (dumpElems xs ++ (']' :: rest))),
        parseVal_dumpVal x (g + 1) (dumpElems xs ++ (']' :: rest)) hcx
          (digitHead_dumpElems xs rest),
        parseArrTail_dumpElems xs (g + 1) rest hct]

theorem parseObjTail_dumpMems : ∀ (kvs : List (List Char × Json)) (fuel : Nat) (rest : List Char),
    costM kvs ≤ fuel → parseObjTail fuel (dumpMems kvs ++ rbrace :: rest) = some (kvs, rest)
  | [], fuel, rest, hc => by
    cases fuel with
    | zero => rw [costM] at hc; omega
    | succ f =>
      rw [parseObjTail.eq_def]
      dsimp only
      rw [show dumpMems [] ++ rbrace :: rest = rbrace :: rest from rfl]
      rw [skipWs_cons_no _ (by decide)]
      simp +decide
  | (k, v) :: kvs, fuel, rest, hc => by
    cases fuel with
    | zero => rw [costM] at hc; omega
    | succ f =>
      rw [costM] at hc
      have hcv : costV v ≤ f := by have := costM_pos kvs; omega
      have hcm : costM kvs ≤ f := by have := costV_pos v; omega
      have hf1 : 1 ≤ f := by have := costV_pos v; omega
      obtain ⟨g, rfl⟩ : ∃ g, f = g + 1 := ⟨f - 1, by omega⟩
      rw [parseObjTail.eq_def]
      dsimp only
      rw [show dumpMems ((k, v) :: kvs) ++ rbrace :: rest
          = ',' :: (' ' :: ('"' :: (escStr k ++ ('"' :: (':' :: (' ' ::
            (dumpVal v ++ (dumpMems kvs ++ (rbrace :: rest))))))))) from by
        rw [dumpMems, dumpStr]
        simp]
      rw [skipWs_cons_no _ (by decide)]
      simp +decide [skipWs_cons_yes _ (by decide : isJsonWs ' ' = true),
        skipWs_cons_no _ (by decide : isJsonWs '"' = false),
        skipWs_cons_no _ (by decide : isJsonWs ':' = false),
        parseStr_escStr k (':' :: (' ' :: (dumpVal v ++ (dumpMems kvs ++ (rbrace :: rest))))),
        parseVal_ws (by decide : isJsonWs ' ' = true) g
          (dumpVal v ++ (dumpMems kvs ++ (rbrace :: rest))),
        parseVal_dumpVal v (g + 1) (dumpMems kvs ++ (rbrace :: rest)) hcv
          (digitHead_dumpMems kvs rest),
        parseObjTail_dumpMems kvs (g + 1) rest hcm]
end

mutual
theorem costV_le_length : ∀ j : Json, costV j ≤ (dumpVal j).length
  | .null => by decide
  | .bool true => by decide
  | .bool false => by decide
  | .int m => by
    rw [costV]
    obtain ⟨c, t, h, _, _⟩ := dumpVal_head (.int m)
    rw [h]
    simp
  | .str s => by
    rw [costV]
    show 1 ≤ ('"' :: (escStr s ++ ['"'])).length
    simp
  | .arr [] => by decide
  | .arr (x :: xs) => by
    have h1 := costV_le_length x
    have h2 := costT_le_length xs
    rw [costV]
    show 1 + costV x + costT xs ≤ ('[' :: (dumpVal x ++ dumpElems xs ++ [']'])).length
    simp only [List.length_cons, List.length_append, List.length_singleton]
    omega
  | .obj [] => by decide
  | .obj ((k, v) :: kvs) => by
    have h1 := costV_le_length v
    have h2 := costM_le_length kvs
    rw [costV]
    show 1 + costV v + costM kvs ≤
      (lbrace :: (dumpStr k ++ ':' :: ' ' :: dumpVal v ++ dumpMems kvs ++ [rbrace])).length
    simp only [List.length_cons, List.length_append, List.length_singleton]
    omega

theorem costT_le_length : ∀ xs : List Json, costT xs ≤ (dumpElems xs).length + 1
  | [] => by decide
  | x :: xs => by
    have h1 := costV_le_length x
    have h2 := costT_le_length xs
    rw [costT]
    show 1 + costV x + costT xs ≤ (',' :: ' ' :: (dumpVal x ++ dumpElems xs)).length + 1
    simp only [List.length_cons, List.length_append]
    omega

theorem costM_le_length : ∀ kvs : List (List Char × Json),
    costM kvs ≤ (dumpMems kvs).length + 1
  | [] => by decide
  | (k, v) :: kvs => by
    have h1 := costV_le_length v
    have h2 := costM_le_length kvs
    rw [costM]
    show 1 + costV v + costM kvs ≤
      (',' :: ' ' :: (dumpStr k ++ ':' :: ' ' :: dumpVal v ++ dumpMems kvs)).length + 1
    simp only [List.length_cons, List.length_append]
    omega
end

theorem loads_dumpVal (j : Json) : loads (dumpVal j) = some j := by
  rw [loads]
  have h1 : costV j ≤ (dumpVal j).length + 1 :=
    le_trans (costV_le_length j) (Nat.le_succ _)
  have h2 := parseVal_dumpVal j ((dumpVal j).length + 1) [] h1 rfl
  rw [List.append_nil] at h2
  rw [h2]
  simp [skipWs]

theorem from_to_together (f : Fields) (data : Json) (hp : parseFields data = .ok f) :
    f.from_list.isSome = f.to_list.isSome := by
  rw [parseFields] at hp
  cases hmsg : pyIn (ls "message") data with
  | error e => simp only [hmsg] at hp; cases hp
  | ok bmsg =>
    simp only [hmsg] at hp
    cases bmsg with
    | true =>
      cases htit : pyGet data (ls "title") (.str (ls "Notification")) with
      | error e => simp only [htit] at hp; cases hp
      | ok event_type =>
        simp only [htit] at hp
        cases hmj : pyGet data (ls "message") (.str []) with
        | error e => simp only [hmj] at hp; cases hp
        | ok msgJ =>
          simp only [hmj] at hp
          cases hstr : asStr msgJ with
          | error e => simp only [hstr] at hp; cases hp
          | ok m =>
            simp only [hstr] at hp
            injection hp with hp
            subst hp
            show (moveOf m).1.isSome = (moveOf m).2.isSome
            rw [moveOf]
            cases searchMove m with
            | none => rfl
            | some pr => cases pr; rfl
    | false =>
      cases hevt : pyIn (ls "event") data with
      | error e => simp only [hevt] at hp; cases hp
      | ok bevt =>
        simp only [hevt] at hp
        cases bevt with
        | true =>
          cases h1 : pyGet data (ls "event") (.str (ls "unknown")) with
          | error e => simp only [h1] at hp; cases hp
          | ok event_type =>
            simp only [h1] at hp
            cases h2 : pyGet data (ls "data") (.obj []) with
            | error e => simp only [h2] at hp; cases hp
            | ok payload =>
              simp only [h2] at hp
              cases h3 : pyGet payload (ls "item") (.obj []) with
              | error e => simp only [h3] at hp; cases hp
              | ok item =>
                simp only [h3] at hp
                cases h4 : pyGet item (ls "name") (.str []) with
                | error e => simp only [h4] at hp; cases hp
                | ok item_name =>
                  simp only [h4] at hp
                  cases h5 : pyGet item (ls "id") (.str []) with
                  | error e => simp only [h5] at hp; cases hp
                  | ok card_id =>
                    simp only [h5] at hp
                    injection hp with hp
                    subst hp
                    rfl
        | false =>
          injection hp with hp
          subst hp
          rfl

/-! # Claims -/

/-- C1: For the Shape-A input `{"title": "Card Moved", "message": "Alice
moved [Fix bug](http://x/cards/abc-123) from **Backlog** to **Doing** on
ProjectX"}`, the webhook handler succeeds and stores exactly one record
with event_type "Card Moved", user_name "Alice", item_name "Fix bug",
card_id "abc-123", from_list "Backlog", to_list "Doing" and board_name
"ProjectX". -/
theorem C1_scenario1 :
    (handle_webhook [] payloadC1 true (ls "cfg") (.ok 200)).resp = .success ∧
    (handle_webhook [] payloadC1 true (ls "cfg") (.ok 200)).store =
      [{ event_type := .str (ls "Card Moved"), item_name := .str (ls "Fix bug"),
         board_name := ls "ProjectX", user_name := ls "Alice",
         card_id := .str (ls "abc-123"), from_list := some (ls "Backlog"),
         to_list := some (ls "Doing"), raw_data := dumpVal payloadC1 }] := by
  constructor
  · decide
  · decide

/-- C2 counterexample: on the empty JSON object the handler does NOT store
an "Unknown" record — `if not data:` treats `{}` as falsy, so the call is
rejected with a 400 "No JSON payload" error and the store is untouched. -/
theorem C2_counterexample :
    (handle_webhook [] (Json.obj []) true (ls "cfg") (.ok 200)).resp
        = .failure 400 (ls "No JSON payload") ∧
    (handle_webhook [] (Json.obj []) true (ls "cfg") (.ok 200)).store = [] :=
  ⟨rfl, rfl⟩

/-- C2 (amended): the empty JSON object `{}` is rejected with a 400
"No JSON payload" error and nothing is stored; a truthy payload with
neither a "message" nor an "event" key is stored with all defaults
(event_type "Unknown", item_name "N/A", board_name "N/A", user_name
"System", card_id/from_list/to_list absent) and the write succeeds. -/
theorem C2_empty_and_defaults :
    (∀ (store : List Record) (u : List Char) (o : Except (List Char) Nat),
      handle_webhook store (Json.obj []) true u o
        = ⟨store, .failure 400 (ls "No JSON payload"), false⟩) ∧
    (∀ (store : List Record) (data : Json) (u : List Char) (o : Except (List Char) Nat),
      truthy data = true → pyIn (ls "message") data = .ok false →
      pyIn (ls "event") data = .ok false →
      handle_webhook store data true u o
        = ⟨store ++ [mkRecord defaultFields data], .success, false⟩) := by
  constructor
  · intro store u o
    rfl
  · intro store data u o ht hmsg hevt
    have hp : parseFields data = .ok defaultFields := by
      rw [parseFields, hmsg, hevt]
    rw [handle_webhook_ok store data u o defaultFields ht hp]
    have hnp : shouldPush defaultFields.board_name defaultFields.event_type = false := by
      decide
    rw [hnp, Bool.false_and]

/-- C2 witness: a concrete truthy payload without "message"/"event" keys
is stored with all defaults. -/
theorem C2_empty_and_defaults_witness :
    handle_webhook [] payloadC2 true (ls "cfg") (.ok 200)
      = ⟨[] ++ [mkRecord defaultFields payloadC2], .success, false⟩ :=
  C2_empty_and_defaults.2 [] payloadC2 (ls "cfg") (.ok 200) (by decide) rfl rfl

/-- C3 counterexample: the message "Alice moved X on Backlog on EP"
decomposes with last-occurrence suffix "EP" (already trimmed, and free of
further " on " tokens), yet the stored board_name is "Backlog on EP", the
trimmed capture from the FIRST " on " — not "EP" as the claim demands. -/
theorem C3_counterexample :
    ls "Alice moved X on Backlog on EP"
        = ls "Alice moved X on Backlog" ++ ls " on " ++ ls "EP" ∧
    hasInfix (ls " on ") (ls "EP") = false ∧
    pyStrip (ls "EP") = ls "EP" ∧
    (handle_webhook [] payloadC3 true (ls "cfg") (.ok 200)).store.map Record.board_name
        = [ls "Backlog on EP"] ∧
    ls "Backlog on EP" ≠ ls "EP" :=
  ⟨by decide, by decide, by decide, by decide, by decide⟩

/-- C3 (amended): for a Shape-A payload whose message contains " on ",
board_name is the trimmed text following the FIRST occurrence of " on "
through end-of-string (`re.search` matches leftmost and the lazy capture
then extends to the end); when the token is absent, board_name stays
"N/A". -/
theorem C3_board_first_on :
    ∀ (store : List Record) (kvs : List (List Char × Json)) (m u : List Char)
      (o : Except (List Char) Nat),
      lookupKey kvs (ls "message") = some (.str m) →
      ((∀ a b : List Char, m = a ++ ls " on " ++ b →
          hasInfix (ls " on ") (a ++ [' ', 'o', 'n']) = false → '\n' ∉ b →
          ∃ r, (handle_webhook store (.obj kvs) true u o).store = store ++ [r] ∧
            r.board_name = pyStrip b) ∧
       (hasInfix (ls " on ") m = false →
          ∃ r, (handle_webhook store (.obj kvs) true u o).store = store ++ [r] ∧
            r.board_name = ls "N/A")) := by
  intro store kvs m u o hm
  have ht : truthy (.obj kvs) = true := truthy_obj_of_lookup hm
  have hp := parseFields_shapeA kvs m hm
  constructor
  · intro a b hdecomp ha hb
    refine ⟨_, by rw [handle_webhook_ok store _ u o _ ht hp], ?_⟩
    show boardOf m = pyStrip b
    rw [boardOf, hdecomp, searchBoard_found a b ha hb]
  · intro habs
    refine ⟨_, by rw [handle_webhook_ok store _ u o _ ht hp], ?_⟩
    show boardOf m = ls "N/A"
    rw [boardOf, searchBoard_not_found m habs]

/-- C3 witness: for the message "Alice did X on EP" the stored board_name
is "EP". -/
theorem C3_board_first_on_witness :
    ∃ r, (handle_webhook [] payloadC3w true (ls "cfg") (.ok 200)).store = [] ++ [r] ∧
      r.board_name = pyStrip (ls "EP") :=
  (C3_board_first_on [] [(ls "title", Json.str (ls "Notify")),
      (ls "message", Json.str (ls "Alice did X on EP"))]
      (ls "Alice did X on EP") (ls "cfg") (.ok 200) (by decide)).1
    (ls "Alice did X") (ls "EP") (by decide) (by decide) (by decide)

/-- C4 counterexample: the message of `payloadC4` contains the pattern
`from **C** to **D**` with C and D free of `**`, yet the stored record
has from_list "A" (from the leftmost match), not "C" — so the claim,
read as a statement about every such embedded pattern, is false. -/
theorem C4_counterexample :
    ls "Bob moved T from **A** to **B** and from **C** to **D** on Z"
        = ls "Bob moved T from **A** to **B** and "
          ++ (ls "from **" ++ (ls "C" ++ (ls "** to **" ++ ((ls "D" ++ ls "**") ++ ls " on Z")))) ∧
    hasInfix (ls "**") (ls "C") = false ∧
    hasInfix (ls "**") (ls "D") = false ∧
    (handle_webhook [] payloadC4 true (ls "cfg") (.ok 200)).store.map Record.from_list
        = [some (ls "A")] ∧
    some (ls "A") ≠ some (ls "C") :=
  ⟨by decide, by decide, by decide, by decide, by decide⟩

/-- C4 (amended): for a Shape-A payload whose message contains the move
pattern, from_list and to_list are the two captures of the LEFTMOST lazy
match of `from \*\*(.*?)\*\* to \*\*(.*?)\*\*`; in particular, when the
first occurrence of "from **" is followed by `X** to **Y**` with X and Y
free of `*` and newline, from_list = X and to_list = Y.  When the message
contains no "from **" at all, both are absent; and in every stored
record, from_list and to_list are both present or both absent together. -/
theorem C4_move_lists :
    (∀ (store : List Record) (kvs : List (List Char × Json)) (m a X Y b u : List Char)
       (o : Except (List Char) Nat),
      lookupKey kvs (ls "message") = some (.str m) →
      m = a ++ (ls "from **" ++ (X ++ (ls "** to **" ++ ((Y ++ ls "**") ++ b)))) →
      hasInfix (ls "from **") (a ++ ls "from *") = false →
      (∀ c ∈ X, c ≠ '*' ∧ c ≠ '\n') → (∀ c ∈ Y, c ≠ '*' ∧ c ≠ '\n') →
      ∃ r, (handle_webhook store (.obj kvs) true u o).store = store ++ [r] ∧
        r.from_list = some X ∧ r.to_list = some Y) ∧
    (∀ (store : List Record) (kvs : List (List Char × Json)) (m u : List Char)
       (o : Except (List Char) Nat),
      lookupKey kvs (ls "message") = some (.str m) →
      hasInfix (ls "from **") m = false →
      ∃ r, (handle_webhook store (.obj kvs) true u o).store = store ++ [r] ∧
        r.from_list = none ∧ r.to_list = none) ∧
    (∀ (store : List Record) (data : Json) (dbOk : Bool) (u : List Char)
       (o : Except (List Char) Nat) (r : Record),
      (handle_webhook store data dbOk u o).store = store ++ [r] →
      r.from_list.isSome = r.to_list.isSome) := by
  refine ⟨?_, ?_, ?_⟩
  · intro store kvs m a X Y b u o hm hdecomp ha hX hY
    have ht : truthy (.obj kvs) = true := truthy_obj_of_lookup hm
    have hp := parseFields_shapeA kvs m hm
    refine ⟨_, by rw [handle_webhook_ok store _ u o _ ht hp], ?_, ?_⟩
    · show (moveOf m).1 = some X
      rw [moveOf, hdecomp, searchMove_found a X Y b ha hX hY]
    · show (moveOf m).2 = some Y
      rw [moveOf, hdecomp, searchMove_found a X Y b ha hX hY]
  · intro store kvs m u o hm habs
    have ht : truthy (.obj kvs) = true := truthy_obj_of_lookup hm
    have hp := parseFields_shapeA kvs m hm
    refine ⟨_, by rw [handle_webhook_ok store _ u o _ ht hp], ?_, ?_⟩
    · show (moveOf m).1 = none
      rw [moveOf, searchMove_not_found m habs]
    · show (moveOf m).2 = none
      rw [moveOf, searchMove_not_found m habs]
  · intro store data dbOk u o r happ
    obtain ⟨_, _, f, hp, hr⟩ := handle_webhook_append happ
    rw [hr]
    exact from_to_together f data hp

/-- C4 witness: for the message "Bob moved T from **Doing** to **Done**
on EP" the stored record has from_list "Doing" and to_list "Done". -/
theorem C4_move_lists_witness :
    ∃ r, (handle_webhook [] payloadC4w true (ls "cfg") (.ok 200)).store = [] ++ [r] ∧
      r.from_list = some (ls "Doing") ∧ r.to_list = some (ls "Done") :=
  C4_move_lists.1 [] [(ls "title", Json.str (ls "Card Moved")),
      (ls "message", Json.str (ls "Bob moved T from **Doing** to **Done** on EP"))]
    (ls "Bob moved T from **Doing** to **Done** on EP")
    (ls "Bob moved T ") (ls "Doing") (ls "Done") (ls " on EP") (ls "cfg") (.ok 200)
    (by decide) (by decide) (by decide) (by decide) (by decide)

/-- C5: `init_db` is idempotent: the first run always succeeds and brings
the schema current, and a second run against that schema performs zero
schema writes, raises no duplicate-column error, and leaves the schema
identical. -/
theorem C5_init_db_idempotent : ∀ db : DBSchema, ∃ cols1 w1,
    init_db db = .ok (⟨some cols1⟩, w1) ∧
    init_db ⟨some cols1⟩ = .ok (⟨some cols1⟩, 0) := by
  intro db
  obtain ⟨cols1, w1, hrun, h1, h2, h3⟩ := init_db_ok db
  refine ⟨cols1, w1, hrun, ?_⟩
  unfold init_db
  simp only [migrate_all_present h1 h2 h3]

/-- C6: the forwarding decision `should_push` is true iff the record's
board_name is in ALLOWED_BOARDS and its event_type is in ALLOWED_TYPES;
and whenever a stored record's board_name is outside ALLOWED_BOARDS, the
chat-sink transport is not invoked, regardless of event_type. -/
theorem C6_forwarding_filter :
    (∀ (b : List Char) (t : Json),
      shouldPush b t = true ↔ (b ∈ ALLOWED_BOARDS ∧ t ∈ ALLOWED_TYPES.map Json.str)) ∧
    (∀ (store : List Record) (data : Json) (dbOk : Bool) (u : List Char)
       (o : Except (List Char) Nat) (r : Record),
      (handle_webhook store data dbOk u o).store = store ++ [r] →
      r.board_name ∉ ALLOWED_BOARDS →
      (handle_webhook store data dbOk u o).sinkCalled = false) := by
  constructor
  · intro b t
    rw [shouldPush]
    simp
  · intro store data dbOk u o r happ hout
    obtain ⟨ht, hdb, f, hp, hr⟩ := handle_webhook_append happ
    subst hdb
    rw [handle_webhook_ok store data u o f ht hp]
    have hb : f.board_name ∉ ALLOWED_BOARDS := by
      simpa [hr, mkRecord] using hout
    show (shouldPush f.board_name f.event_type && !u.isEmpty) = false
    simp [shouldPush, hb]

/-- C6 witness: for a record stored with board_name "ProjectX" (outside
the allow-list) the sink is not invoked. -/
theorem C6_forwarding_filter_witness :
    (handle_webhook [] payloadC6 true (ls "cfg") (.ok 200)).sinkCalled = false :=
  C6_forwarding_filter.2 [] payloadC6 true (ls "cfg") (.ok 200)
    { event_type := .str (ls "Card Moved"), item_name := .str (ls "T"),
      board_name := ls "ProjectX", user_name := ls "Ann",
      card_id := .str (ls "z9"), from_list := some (ls "A"),
      to_list := some (ls "B"), raw_data := dumpVal payloadC6 }
    (by decide) (by decide)

/-- C7: the outcome of the chat-sink call never influences the handler's
result — the response and the stored records are identical for any two
sink outcomes (including network errors, timeouts and non-success
statuses, all swallowed by the inner try/except) — and whenever
parse-and-store succeed, the handler returns the success acknowledgment
with exactly the already-stored record appended. -/
theorem C7_sink_isolated :
    (∀ (store : List Record) (data : Json) (u : List Char)
       (o o2 : Except (List Char) Nat),
      handle_webhook store data true u o = handle_webhook store data true u o2) ∧
    (∀ (store : List Record) (data : Json) (u : List Char)
       (o : Except (List Char) Nat) (f : Fields),
      truthy data = true → parseFields data = .ok f →
      (handle_webhook store data true u o).resp = .success ∧
      (handle_webhook store data true u o).store = store ++ [mkRecord f data]) := by
  constructor
  · intro store data u o o2
    rfl
  · intro store data u o f ht hp
    rw [handle_webhook_ok store data u o f ht hp]
    exact ⟨rfl, rfl⟩

/-- C7 witness: with a failing sink outcome the handler still returns
success and the record is stored. -/
theorem C7_sink_isolated_witness :
    (handle_webhook [] payloadC7 true (ls "cfg") (.error (ls "network timeout"))).resp
        = .success ∧
    (handle_webhook [] payloadC7 true (ls "cfg") (.error (ls "network timeout"))).store
        = [] ++ [mkRecord
            { event_type := .str (ls "Card Moved"), item_name := .str (ls "T"),
              board_name := ls "EP", user_name := ls "Bob",
              card_id := .str (ls "a1"), from_list := some (ls "A"),
              to_list := some (ls "B") } payloadC7] :=
  C7_sink_isolated.2 [] payloadC7 (ls "cfg") (.error (ls "network timeout"))
    { event_type := .str (ls "Card Moved"), item_name := .str (ls "T"),
      board_name := ls "EP", user_name := ls "Bob",
      card_id := .str (ls "a1"), from_list := some (ls "A"),
      to_list := some (ls "B") }
    (by decide) rfl

/-- C8: each webhook call is atomic with respect to the store — an error
response leaves the store unchanged, and a success response appends
exactly one record. -/
theorem C8_atomic :
    ∀ (store : List Record) (data : Json) (dbOk : Bool) (u : List Char)
      (o : Except (List Char) Nat),
      ((handle_webhook store data dbOk u o).resp ≠ .success →
        (handle_webhook store data dbOk u o).store = store) ∧
      ((handle_webhook store data dbOk u o).resp = .success →
        ∃ r, (handle_webhook store data dbOk u o).store = store ++ [r]) := by
  intro store data dbOk u o
  cases ht : truthy data with
  | false =>
    rw [handle_webhook]
    simp [ht]
  | true =>
    cases hp : parseFields data with
    | error e =>
      rw [handle_webhook]
      simp [ht, hp]
    | ok f =>
      cases dbOk with
      | false =>
        rw [handle_webhook]
        simp [ht, hp]
      | true =>
        rw [handle_webhook]
        simp [ht, hp]

/-- C8 witness: the rejected empty object stores nothing, and a stored
Shape-B payload appends exactly one record. -/
theorem C8_atomic_witness :
    (handle_webhook [] (Json.obj []) true (ls "cfg") (.ok 200)).store = [] ∧
    ∃ r, (handle_webhook [] payloadC8 true (ls "cfg") (.ok 200)).store = [] ++ [r] :=
  ⟨(C8_atomic [] (Json.obj []) true (ls "cfg") (.ok 200)).1 (by decide),
   (C8_atomic [] payloadC8 true (ls "cfg") (.ok 200)).2 (by decide)⟩

/-- C9: the stored raw_data of every record appended by a webhook call
deserializes back to exactly the original inbound payload —
`json.loads` after `json.dumps` is the identity on the payload. -/
theorem C9_raw_payload_roundtrip :
    ∀ (store : List Record) (data : Json) (dbOk : Bool) (u : List Char)
      (o : Except (List Char) Nat) (r : Record),
      (handle_webhook store data dbOk u o).store = store ++ [r] →
      loads r.raw_data = some data := by
  intro store data dbOk u o r happ
  obtain ⟨_, _, f, _, hr⟩ := handle_webhook_append happ
  rw [hr]
  show loads (dumpVal data) = some data
  exact loads_dumpVal data

/-- C9 witness: the record stored for a payload with escapes and nesting
round-trips to the original payload. -/
theorem C9_raw_payload_roundtrip_witness :
    loads (mkRecord defaultFields payloadC9).raw_data = some payloadC9 :=
  C9_raw_payload_roundtrip [] payloadC9 true (ls "cfg") (.ok 200)
    (mkRecord defaultFields payloadC9) rfl

/-- C10: for every payload with a "message" key holding a string, the
stored user_name is the prefix of the message before the first space
(`split(' ')[0]`); when the message is empty or begins with a space, the
user_name is the empty string — the "System" default is never kept. -/
theorem C10_user_name_split :
    ∀ (store : List Record) (kvs : List (List Char × Json)) (m u : List Char)
      (o : Except (List Char) Nat),
      lookupKey kvs (ls "message") = some (.str m) →
      ∃ r, (handle_webhook store (.obj kvs) true u o).store = store ++ [r] ∧
        r.user_name = m.takeWhile (· != ' ') ∧
        ((m = [] ∨ m.head? = some ' ') → r.user_name = []) := by
  intro store kvs m u o hm
  have ht : truthy (.obj kvs) = true := truthy_obj_of_lookup hm
  have hp := parseFields_shapeA kvs m hm
  refine ⟨_, by rw [handle_webhook_ok store _ u o _ ht hp], ?_, ?_⟩
  · show headSplit m = m.takeWhile (· != ' ')
    exact headSplit_takeWhile m
  · intro hcase
    show headSplit m = []
    rw [headSplit_takeWhile m]
    rcases hcase with h | h
    · subst h
      rfl
    · cases m with
      | nil => rfl
      | cons c t =>
        simp only [List.head?_cons, Option.some.injEq] at h
        subst h
        simp [List.takeWhile]

/-- C10 witness: a message starting with a space yields the empty
user_name. -/
theorem C10_user_name_split_witness :
    ∃ r, (handle_webhook [] (.obj kvsC10) true (ls "cfg") (.ok 200)).store = [] ++ [r] ∧
      r.user_name = (ls " leading space then words").takeWhile (· != ' ') ∧
      ((ls " leading space then words" = [] ∨
          (ls " leading space then words").head? = some ' ') → r.user_name = []) :=
  C10_user_name_split [] kvsC10 (ls " leading space then words") (ls "cfg") (.ok 200)
    (by decide)
